import Mathlib

/-!
# Markdown renderer of `faetools/format` (vendored in go-notion-codegen)

A shallow embedding of `markdown/render.go` and `markdown/renderer.go`.

* A writer is modelled by the bytes written to it: every rendering function
  returns the bytes it writes together with its Go return values.  Writer
  decorators become functions on the byte stream written through them.
* The goldmark tree is a rose tree; a node handle (`ast.Node`, with its
  parent and sibling links) is a zipper position `Loc` in that tree and a
  nil handle is `none`.
* Helpers of the package that the two files use but do not define, and the
  external libraries (YAML encoders, code formatter, goldmark accessors),
  are the fields of `Env`; every function and theorem is stated for an
  arbitrary `Env`.  Constants whose value the specification fixes, the
  traversal engine and the trim writer are definitions marked
  `Modelled from the spec:`.
* A Go panic (failed type assertion, nil dereference, slice bounds out of
  range) is a `Failure.panic`, kept apart from returned errors.
-/

set_option autoImplicit false

namespace Markdown

/-! ## Bytes, statuses, errors -/

/-- A Go `byte`; only compared and copied, never used in arithmetic. -/
abbrev Byte := Nat

/-- A Go `[]byte`. -/
abbrev Bytes := List Byte

/-- The goldmark `ast.WalkStatus` values. -/
inductive WalkStatus where
  | WalkStop
  | WalkSkipChildren
  | WalkContinue
  deriving DecidableEq, Repr

/-- Go `error` values, as far as `render.go` and `renderer.go` build them. -/
inductive Error where
  /-- The value `errors.New(msg)`. -/
  | new (msg : String)
  /-- The value `fmt.Errorf("%w (level %d)", cause, level)`. -/
  | withLevel (cause : Error) (level : Int)
  /-- The value `fmt.Errorf("encoding %T: %w", m, cause)`, with the name of the type of `m`. -/
  | encoding (typeName : String) (cause : Error)
  /-- The value `errors.Wrap(cause, label)`. -/
  | wrap (cause : Error) (label : String)
  deriving DecidableEq, Repr

/-- The sentinel `errInvalidEmphLevel = errors.New("invalid emphasis level")`. -/
def errInvalidEmphLevel : Error := Error.new "invalid emphasis level"

/-- The Go `errors.Is(e, target)` on the wrapping chain of `e`. -/
def Error.is (target : Error) : Error → Bool
  | .new msg => decide (Error.new msg = target)
  | .withLevel cause level =>
      decide (Error.withLevel cause level = target) || Error.is target cause
  | .encoding t cause => decide (Error.encoding t cause = target) || Error.is target cause
  | .wrap cause label => decide (Error.wrap cause label = target) || Error.is target cause

/-- How a call can end other than normally: with a returned `error`, or with
a run-time panic (failed type assertion, nil dereference), which no function
of the package recovers. -/
inductive Failure where
  | error (e : Error)
  | panic (msg : String)
  deriving DecidableEq, Repr

/-- What one call of a node rendering function does: the bytes it writes to
its writer, and the `(ast.WalkStatus, error)` pair it returns (or the panic
it raises). -/
structure Result where
  out : Bytes
  status : WalkStatus
  err : Option Failure
  deriving DecidableEq, Repr

/-- Returning `status, nil` after having written `out`. -/
def Result.ret (out : Bytes) (status : WalkStatus) : Result := ⟨out, status, none⟩

/-- Returning `0, err` after having written `out`; status `0` is none of the
three walk statuses and is never inspected when `err` is set, it is recorded
as `WalkStop`. -/
def Result.fail (out : Bytes) (e : Error) : Result :=
  ⟨out, WalkStatus.WalkStop, some (Failure.error e)⟩

/-- Panicking after having written `out`. -/
def Result.panic (out : Bytes) (msg : String) : Result :=
  ⟨out, WalkStatus.WalkStop, some (Failure.panic msg)⟩

/-! ## Constants of the package -/

/-- Modelled from the spec: the line terminator byte (constant `bNewLine`, not in the two files). -/
def bNewLine : Byte := 10

/-- Modelled from the spec: one line terminator (constant `newLine`). -/
def newLine : Bytes := [10]

/-- Modelled from the spec: the cut set of the top-level trim writer, one line terminator (constant `sNewLine`). -/
def sNewLine : Bytes := [10]

/-- Modelled from the spec: two line terminators (constant `twoNewLines`). -/
def twoNewLines : Bytes := [10, 10]

/-- Modelled from the spec: the heading glyph `#` (constant `bHash`). -/
def bHash : Byte := 35

/-- Modelled from the spec: one space (constant `bSpace`). -/
def bSpace : Byte := 32

/-- Modelled from the spec: the closing angle bracket of an autolink (constant `bGreaterThan`). -/
def bGreaterThan : Byte := 62

/-- Modelled from the spec: the opening angle bracket of an autolink (constant `bLessThan`). -/
def bLessThan : Byte := 60

/-- Modelled from the spec: the code span delimiter, a grave accent (constant `bGraveAccent`). -/
def bGraveAccent : Byte := 96

/-- Modelled from the spec: the italics delimiter `*` (constant `bAsterisk`). -/
def bAsterisk : Byte := 42

/-- Modelled from the spec: the bold delimiter `**` (constant `twoAsterisks`). -/
def twoAsterisks : Bytes := [42, 42]

/-- Modelled from the spec: the opening `[` of a link (constant `bLeftSquareBracket`). -/
def bLeftSquareBracket : Byte := 91

/-- Modelled from the spec: the double quote closing a title (constant `bQuotationMark`). -/
def bQuotationMark : Byte := 34

/-- Modelled from the spec: the closing `)` of a link (constant `bRightParenthesis`). -/
def bRightParenthesis : Byte := 41

/-- Modelled from the spec: the text `](` between link text and destination (constant `linkTransition`). -/
def linkTransition : Bytes := [93, 40]

/-- Modelled from the spec: a space and an opening double quote before a title (constant `linkTitleStart`). -/
def linkTitleStart : Bytes := [32, 34]

/-- Modelled from the spec: the text `![` opening an image (constant `imageStart`). -/
def imageStart : Bytes := [33, 91]

/-- Modelled from the spec: the fence of a fenced code block, three grave accents (constant `codeBlockFence`). -/
def codeBlockFence : Bytes := [96, 96, 96]

/-- Modelled from the spec: the fixed bullet of an unordered list item, `- ` (constant `preUListItem`). -/
def preUListItem : Bytes := [45, 32]

/-- The start fence `startYAMLFrontmatter = "---\n"`. -/
def startYAMLFrontmatter : Bytes := [45, 45, 45, 10]

/-- The end fence `endYAMLFrontmatter = "---\n\n"`. -/
def endYAMLFrontmatter : Bytes := [45, 45, 45, 10, 10]

/-- The emphasis level `levelItalics = 1`. -/
def levelItalics : Int := 1

/-- The emphasis level `levelBold = 2`. -/
def levelBold : Int := 2

/-- The emphasis level `levelUnderlined = 3`. -/
def levelUnderlined : Int := 3

/-! ## The document tree -/

/-- The goldmark `text.Segment`: a byte range of the source with a padding
(three Go `int` fields). -/
structure Segment where
  start : Int
  stop : Int
  padding : Int
  deriving DecidableEq, Repr

/-- Whether `Segment.Value(source)` returns: the bounds of the slice
expression `source[start:stop]` hold (`0 ≤ start ≤ stop ≤ len(source)`, the
source being a slice whose capacity is its length) and the padding count is
not negative. -/
def Segment.inside (s : Segment) (source : Bytes) : Bool :=
  decide (0 ≤ s.start ∧ s.start ≤ s.stop ∧ s.stop ≤ source.length ∧ 0 ≤ s.padding)

/-- The goldmark `Segment.Value(source)`: `padding` spaces, then
`source[start:stop]`.  The result is `none` when the call panics: the slice
bounds are out of range or the padding count is negative. -/
def Segment.Value (s : Segment) (source : Bytes) : Option Bytes :=
  if s.inside source then
    some (List.replicate s.padding.toNat 32 ++
      (source.drop s.start.toNat).take (s.stop - s.start).toNat)
  else none

/-- The message that stands for the run-time panic of `Segment.Value` (slice
bounds out of range, or a negative padding count). -/
def sliceBoundsPanic : String := "runtime error: slice bounds out of range"

/-- The loop `for each segment: w.Write(segment.Value(source))`: the bytes
written, and whether a call of `Value` panicked (nothing further is written
then). -/
def writeSegments (source : Bytes) : List Segment → Bytes × Bool
  | [] => ([], false)
  | seg :: segs =>
    match seg.Value source with
    | none => ([], true)
    | some v => (v ++ (writeSegments source segs).1, (writeSegments source segs).2)

/-- The loop `for each segment: lines[i] = segment.Value(source)`: the
values, or `none` when a call of `Value` panics. -/
def segmentValues (source : Bytes) : List Segment → Option (List Bytes)
  | [] => some []
  | seg :: segs =>
    match seg.Value source, segmentValues source segs with
    | some v, some vs => some (v :: vs)
    | _, _ => none

/-- The goldmark `ast.NodeKind` values the renderer names, and any other kind. -/
inductive NodeKind where
  | Document
  | Heading
  | Blockquote
  | CodeBlock
  | FencedCodeBlock
  | HTMLBlock
  | List
  | ListItem
  | Paragraph
  | TextBlock
  | ThematicBreak
  | Strikethrough
  | AutoLink
  | CodeSpan
  | Emphasis
  | Image
  | Link
  | RawHTML
  | Text
  | String
  | Other (id : Nat)
  deriving DecidableEq, Repr

/-- The concrete node type behind an `ast.Node`, with the fields the renderer reads. -/
inductive NodeData where
  | document
  | heading (level : Int)
  | blockquote
  | codeBlock (lines : List Segment)
  | fencedCodeBlock (info : Option Segment) (lines : List Segment)
  | htmlBlock (lines : List Segment) (closureLine : Segment)
  | list (ordered : Bool) (start : Int)
  | listItem
  | paragraph
  | textBlock
  | thematicBreak
  | strikethrough
  | autoLink (value : Segment) (protocol : Option Bytes)
  | codeSpan
  | emphasis (level : Int)
  | image (destination : Bytes) (title : Bytes)
  | link (destination : Bytes) (title : Bytes)
  | rawHTML (segments : List Segment)
  | text (segment : Segment) (raw : Bool) (softLineBreak : Bool) (hardLineBreak : Bool)
  | string (value : Bytes)
  | other (id : Nat)
  deriving DecidableEq, Repr

/-- The `Kind()` of a node type. -/
def NodeData.Kind : NodeData → NodeKind
  | .document => .Document
  | .heading _ => .Heading
  | .blockquote => .Blockquote
  | .codeBlock _ => .CodeBlock
  | .fencedCodeBlock _ _ => .FencedCodeBlock
  | .htmlBlock _ _ => .HTMLBlock
  | .list _ _ => .List
  | .listItem => .ListItem
  | .paragraph => .Paragraph
  | .textBlock => .TextBlock
  | .thematicBreak => .ThematicBreak
  | .strikethrough => .Strikethrough
  | .autoLink _ _ => .AutoLink
  | .codeSpan => .CodeSpan
  | .emphasis _ => .Emphasis
  | .image _ _ => .Image
  | .link _ _ => .Link
  | .rawHTML _ => .RawHTML
  | .text _ _ _ _ => .Text
  | .string _ => .String
  | .other id => .Other id

/-- A subtree of the document: a node with its children in stored order. -/
inductive Node where
  | mk (data : NodeData) (children : List Node)

/-- The fields of the node at the root of a subtree. -/
def Node.data : Node → NodeData
  | .mk d _ => d

/-- The children of the node at the root of a subtree. -/
def Node.children : Node → List Node
  | .mk _ cs => cs

/-- One step of the path from a node up to the root: the parent's fields and
the siblings on both sides, nearest first. -/
structure Crumb where
  data : NodeData
  left : List Node
  right : List Node

/-- A non-nil `ast.Node` handle: a subtree together with its position in the
document (the ancestors, nearest first). -/
structure Loc where
  node : Node
  ctx : List Crumb

/-- The `Kind()` of the node. -/
def Loc.Kind (n : Loc) : NodeKind := n.node.data.Kind

/-- The parent subtree seen from a child `node` below the crumb `c`. -/
def Crumb.rebuild (c : Crumb) (node : Node) : Node :=
  Node.mk c.data (c.left.reverse ++ node :: c.right)

/-- The goldmark `Parent()`. -/
def Loc.Parent (n : Loc) : Option Loc :=
  match n.ctx with
  | [] => none
  | c :: cs => some ⟨c.rebuild n.node, cs⟩

/-- The goldmark `PreviousSibling()`. -/
def Loc.PreviousSibling (n : Loc) : Option Loc :=
  match n.ctx with
  | [] => none
  | c :: cs =>
    match c.left with
    | [] => none
    | l :: ls => some ⟨l, ⟨c.data, ls, n.node :: c.right⟩ :: cs⟩

/-- The goldmark `NextSibling()`. -/
def Loc.NextSibling (n : Loc) : Option Loc :=
  match n.ctx with
  | [] => none
  | c :: cs =>
    match c.right with
    | [] => none
    | x :: xs => some ⟨x, ⟨c.data, n.node :: c.left, xs⟩ :: cs⟩

/-- The goldmark `FirstChild()`. -/
def Loc.FirstChild (n : Loc) : Option Loc :=
  match n.node.children with
  | [] => none
  | c :: cs => some ⟨c, ⟨n.node.data, [], cs⟩ :: n.ctx⟩

/-- The goldmark `LastChild()`. -/
def Loc.LastChild (n : Loc) : Option Loc :=
  match n.node.children.reverse with
  | [] => none
  | c :: cs => some ⟨c, ⟨n.node.data, cs, []⟩ :: n.ctx⟩

/-- The handle of the root of a whole tree. -/
def Loc.root (doc : Node) : Loc := ⟨doc, []⟩

/-- The goldmark `Lines()` of a block node, as segments of the source. -/
def NodeData.Lines : NodeData → List Segment
  | .codeBlock lines => lines
  | .fencedCodeBlock _ lines => lines
  | .htmlBlock lines _ => lines
  | _ => []

/-! ## Front-matter values -/

/-- A dynamically typed Go value, as a YAML encoder sees it. -/
inductive Value where
  | null
  | bool (b : Bool)
  | int (i : Int)
  | str (s : String)
  | seq (items : List Value)
  | map (entries : List (Value × Value))

/-- The type `yamlV2.MapSlice`: key/value items in insertion order. -/
abbrev MapSlice := List (Value × Value)

/-- A front-matter value by dynamic type, as the type switch of
`renderFrontMatter` sees it: the nil interface, a `yamlV2.MapSlice`, or a
value of any other type (with the name of its type). -/
inductive FrontMatter where
  | nil
  | mapSlice (m : MapSlice)
  | other (typeName : String) (v : Value)

/-- The `metaData` argument of `Render` by dynamic type: a `parser.Context`
(of which only the items that `meta.GetItems` returns matter; a context with
no stored items gives the empty slice), or any other value. -/
inductive MetaData where
  | context (items : MapSlice)
  | value (fm : FrontMatter)

/-! ## Configuration and environment -/

/-- The `Config` embedded in `NodeRenderer`: the two flags the renderers read. -/
structure Config where
  HardWraps : Bool
  Terminal : Bool
  deriving DecidableEq, Repr

/-- What `render.go` and `renderer.go` use without defining it: helpers and
constants of the package kept in other files, and calls into external
libraries.  Every function of the embedding takes it as a parameter. -/
structure Env where
  /-- The bytes `yamlV2.NewEncoder(w).Encode(m)` writes, and its error. -/
  encodeV2 : MapSlice → Bytes × Option Error
  /-- The bytes `yamlV3.NewEncoder(w).Encode(m)` writes, and its error. -/
  encodeV3 : Value → Bytes × Option Error
  /-- The helper `getIndentOfListItem(n)`. -/
  getIndentOfListItem : Loc → Int
  /-- The bytes that reach `w` when a stream is written to `writers.NewIndentWriter(w, indent)`. -/
  indentWriter : Int → Bytes → Bytes
  /-- The bytes that reach `w` when a stream is written to `newBlockquoteWriter(w)`. -/
  blockquoteWriter : Bytes → Bytes
  /-- The helper `numElement(node)`. -/
  numElement : Loc → Int
  /-- The lines left by the loop `for hasSpacePrefix(lines) { lines = trimSpacePrefix(lines) }`. -/
  shiftLeft : List Bytes → List Bytes
  /-- The helper `getLanguage(source, node)`. -/
  getLanguage : Bytes → Node → Bytes
  /-- The bytes `writeFormattedLines(w, source, node, lang)` writes. -/
  writeFormattedLines : Bytes → Node → Bytes → Bytes
  /-- The constant `langHTML`, as bytes. -/
  langHTML : Bytes
  /-- The constant `thematicBreak`. -/
  thematicBreak : Bytes
  /-- The terminal control sequence `tItalic`. -/
  tItalic : Bytes
  /-- The terminal control sequence `tBold`. -/
  tBold : Bytes
  /-- The terminal control sequence `tUnderline`. -/
  tUnderline : Bytes
  /-- The terminal control sequence `tReset`. -/
  tReset : Bytes
  /-- The goldmark `n.Text(source)`. -/
  nodeText : Bytes → Node → Bytes
  /-- The goldmark `(*ast.AutoLink).URL(source)`. -/
  autoLinkURL : Bytes → Node → Bytes

/-- A `NodeRendererFunc` of goldmark without its writer argument: source,
node and entering flag to the bytes written and the values returned. -/
abbrev NodeRendererFunc := Bytes → Loc → Bool → Result

/-- The rendering methods of `NodeRenderer`, as function values. -/
inductive Method where
  | renderHeading
  | renderBlockquote
  | renderCodeBlock
  | renderFencedCodeBlock
  | renderHTMLBlock
  | renderList
  | renderListItem
  | renderParagraph
  | renderTextBlock
  | renderThematicBreak
  | renderStrikethrough
  | renderAutoLink
  | renderCodeSpan
  | renderEmphasis
  | renderImage
  | renderLink
  | renderRawHTML
  | renderText
  | renderString
  deriving DecidableEq, Repr

/-- A function value stored in a rendering table: a method value `r.m` of the
renderer itself, or a function supplied by the caller. -/
inductive FuncValue where
  | method (m : Method)
  | func (f : NodeRendererFunc)

/-- The Go map type `NodeRendererFuncs`, as its entries; a map has at most
one entry per kind. -/
abbrev NodeRendererFuncs (α : Type) := List (NodeKind × α)

/-- The struct `NodeRenderer`.  Its field `additionalOptions` holds the
goldmark options; what they do to this renderer is in `Config`. -/
structure NodeRenderer where
  Config : Config
  renderFuncsOverrides : NodeRendererFuncs NodeRendererFunc

/-- The constructor `NewNodeRenderer(renderFuncsOverrides)`, with the
configuration that `NewConfig()` and the options yield. -/
def NewNodeRenderer (cfg : Config) (renderFuncsOverrides : NodeRendererFuncs NodeRendererFunc) :
    NodeRenderer :=
  ⟨cfg, renderFuncsOverrides⟩

/-! ## Emphasis helpers -/

/-- The function `ancestorHas`, as a loop over the crumbs: `node` is the
subtree the loop variable `p` is the parent of. -/
def ancestorHasAux (criterion : Loc → Bool) : Node → List Crumb → Bool
  | _, [] => false
  | node, c :: cs =>
    criterion ⟨c.rebuild node, cs⟩ || ancestorHasAux criterion (c.rebuild node) cs

/-- The function `ancestorHas(n, criterion)`. -/
def ancestorHas (n : Loc) (criterion : Loc → Bool) : Bool :=
  ancestorHasAux criterion n.node n.ctx

/-- The function `onlyChildHas(n, criterion)`. -/
def onlyChildHas (n : Option Loc) (criterion : Loc → Bool) : Bool :=
  match n with
  | none => false
  | some n =>
    match n.FirstChild with
    | none => false
    | some c => if c.NextSibling.isSome then false else criterion c

/-- The function `selfOrOnlyChildHas(n, criterion)`. -/
def selfOrOnlyChildHas (n : Option Loc) (criterion : Loc → Bool) : Bool :=
  match n with
  | none => false
  | some m => criterion m || onlyChildHas n criterion

/-- The closure `sameEmphasis` of `renderEmphasis` for a node of level `level`. -/
def sameEmphasis (level : Int) (other : Loc) : Bool :=
  match other.node.data with
  | .emphasis l => l == level
  | _ => false

/-- The criterion that `renderEmphasis` passes to `ancestorHas`. -/
def emphasisAncestorCriterion (level : Int) (ancestor : Loc) : Bool :=
  sameEmphasis level ancestor ||
    selfOrOnlyChildHas ancestor.PreviousSibling (sameEmphasis level) ||
    selfOrOnlyChildHas ancestor.NextSibling (sameEmphasis level)

/-- The condition of the first `if` of `renderEmphasis` ("don't write the
same emphasis again") for a node `n` of level `level`. -/
def emphasisSuppressed (n : Loc) (level : Int) (entering : Bool) : Bool :=
  (entering && onlyChildHas n.PreviousSibling (sameEmphasis level)) ||
    (!entering && onlyChildHas n.NextSibling (sameEmphasis level)) ||
    ancestorHas n (emphasisAncestorCriterion level)

/-! ## Inline renderers -/

/-- The method `renderEmphasis`. -/
def NodeRenderer.renderEmphasis (env : Env) (r : NodeRenderer) (_source : Bytes) (node : Loc)
    (entering : Bool) : Result :=
  match node.node.data with
  | .emphasis level =>
    if emphasisSuppressed node level entering then
      Result.ret [] .WalkContinue
    else if r.Config.Terminal then
      if entering then
        if level = levelItalics then Result.ret env.tItalic .WalkContinue
        else if level = levelBold then Result.ret env.tBold .WalkContinue
        else if level = levelUnderlined then Result.ret env.tUnderline .WalkContinue
        else Result.ret [] .WalkContinue
      else Result.ret env.tReset .WalkContinue
    else
      if level = levelItalics then Result.ret [bAsterisk] .WalkContinue
      else if level = levelBold then Result.ret twoAsterisks .WalkContinue
      else Result.fail [] (Error.withLevel errInvalidEmphLevel level)
  | _ => Result.panic [] "interface conversion: ast.Node is not *ast.Emphasis"

/-- The literal bytes of a child of a code span: the source segment of a
`*ast.Text` (when `Segment.Value` returns), the value of a `*ast.String`,
and no literal for other nodes. -/
def literalOf (source : Bytes) (c : Node) : Option Bytes :=
  match c.data with
  | .text seg _ _ _ => seg.Value source
  | .string value => some value
  | _ => none

/-- Whether reading the literal of a child panics: the child is a
`*ast.Text` and `Segment.Value` panics on its segment. -/
def literalPanics (source : Bytes) (c : Node) : Bool :=
  match c.data with
  | .text seg _ _ _ => !seg.inside source
  | _ => false

/-- The Go `bytes.Contains(b, []byte{c})`. -/
def containsByte (b : Bytes) (c : Byte) : Bool := b.any (fun x => x == c)

/-- The first `switch` of `renderCodeSpan`, when reading the literal of the
first child does not panic: the bytes written when the first child is a
literal containing a grave accent. -/
def codeSpanEscape (source : Bytes) (node : Loc) : Bytes :=
  match node.node.children with
  | [] => []
  | c :: _ =>
    match literalOf source c with
    | some lit => if containsByte lit bGraveAccent then [bGraveAccent] else []
    | none => []

/-- The loop of `renderCodeSpan` over the children: the literal of every
`*ast.Text` and `*ast.String` child, in sibling order. -/
def codeSpanContent (source : Bytes) : List Node → Bytes
  | [] => []
  | c :: cs => (literalOf source c).getD [] ++ codeSpanContent source cs

/-- The loop of `renderCodeSpan` over the children, as it runs: the bytes
written, and whether reading the literal of a child panicked (nothing
further is written then). -/
def codeSpanLoop (source : Bytes) : List Node → Bytes × Bool
  | [] => ([], false)
  | c :: cs =>
    if literalPanics source c then ([], true)
    else ((literalOf source c).getD [] ++ (codeSpanLoop source cs).1, (codeSpanLoop source cs).2)

/-- The method `renderCodeSpan`. -/
def NodeRenderer.renderCodeSpan (_r : NodeRenderer) (source : Bytes) (node : Loc)
    (entering : Bool) : Result :=
  if (match node.node.children with
      | [] => false
      | c :: _ => literalPanics source c) then
    Result.panic [] sliceBoundsPanic
  else
    let esc := codeSpanEscape source node
    if !entering then
      Result.ret (esc ++ [bGraveAccent]) .WalkContinue
    else
      let loop := codeSpanLoop source node.node.children
      if loop.2 then Result.panic (esc ++ [bGraveAccent] ++ loop.1) sliceBoundsPanic
      else Result.ret (esc ++ [bGraveAccent] ++ loop.1) .WalkSkipChildren

/-- The method `renderText`. -/
def NodeRenderer.renderText (r : NodeRenderer) (source : Bytes) (node : Loc)
    (entering : Bool) : Result :=
  if !entering then Result.ret [] .WalkContinue
  else
    match node.node.data with
    | .text seg raw soft hard =>
      match seg.Value source with
      | none => Result.panic [] sliceBoundsPanic
      | some value =>
        if raw then Result.ret value .WalkContinue
        else if soft then
          if r.Config.HardWraps then Result.ret (value ++ twoNewLines) .WalkContinue
          else Result.ret (value ++ [bNewLine]) .WalkContinue
        else if hard then Result.ret (value ++ twoNewLines) .WalkContinue
        else Result.ret value .WalkContinue
    | _ => Result.panic [] "interface conversion: ast.Node is not *ast.Text"

/-- The method `renderString`. -/
def NodeRenderer.renderString (_r : NodeRenderer) (_source : Bytes) (n : Loc)
    (entering : Bool) : Result :=
  if entering then
    match n.node.data with
    | .string value => Result.ret value .WalkContinue
    | _ => Result.panic [] "interface conversion: ast.Node is not *ast.String"
  else
    match n.NextSibling with
    | some s => if s.Kind = .List then Result.ret [10] .WalkContinue else Result.ret [] .WalkContinue
    | none => Result.ret [] .WalkContinue

/-- The method `renderStrikethrough`. -/
def NodeRenderer.renderStrikethrough (_r : NodeRenderer) (_source : Bytes) (_node : Loc)
    (_entering : Bool) : Result :=
  Result.ret [] .WalkContinue

/-- The method `renderRawHTML`. -/
def NodeRenderer.renderRawHTML (env : Env) (_r : NodeRenderer) (source : Bytes) (node : Loc)
    (entering : Bool) : Result :=
  if !entering then Result.ret [] .WalkSkipChildren
  else
    match node.node.data with
    | .rawHTML segments =>
      let written := writeSegments source segments
      if written.2 then
        Result.panic (env.nodeText source node.node ++ written.1) sliceBoundsPanic
      else Result.ret (env.nodeText source node.node ++ written.1) .WalkSkipChildren
    | _ => Result.panic (env.nodeText source node.node)
        "interface conversion: ast.Node is not *ast.RawHTML"

/-- The bytes both `renderLink` and `renderImage` write for an optional
title: nothing for an empty title, else a space and the title in double quotes. -/
def titlePart (title : Bytes) : Bytes :=
  if title.length != 0 then linkTitleStart ++ title ++ [bQuotationMark] else []

/-- The method `renderLink`. -/
def NodeRenderer.renderLink (_r : NodeRenderer) (_source : Bytes) (node : Loc)
    (entering : Bool) : Result :=
  if entering then Result.ret [bLeftSquareBracket] .WalkContinue
  else
    match node.node.data with
    | .link destination title =>
      Result.ret (linkTransition ++ destination ++ titlePart title ++ [bRightParenthesis])
        .WalkContinue
    | _ => Result.panic [] "interface conversion: ast.Node is not *ast.Link"

/-- The method `renderImage`. -/
def NodeRenderer.renderImage (env : Env) (_r : NodeRenderer) (source : Bytes) (node : Loc)
    (entering : Bool) : Result :=
  if !entering then Result.ret [] .WalkContinue
  else
    match node.node.data with
    | .image destination title =>
      let body := imageStart ++ env.nodeText source node.node ++ linkTransition ++ destination ++
        titlePart title ++ [bRightParenthesis]
      match node.Parent with
      | none => Result.ret (body ++ twoNewLines) .WalkSkipChildren
      | some p =>
        if p.Kind = .Document then Result.ret (body ++ twoNewLines) .WalkSkipChildren
        else Result.ret body .WalkSkipChildren
    | _ => Result.panic [] "interface conversion: ast.Node is not *ast.Image"

/-- The method `renderAutoLink`. -/
def NodeRenderer.renderAutoLink (env : Env) (_r : NodeRenderer) (source : Bytes) (node : Loc)
    (entering : Bool) : Result :=
  if !entering then Result.ret [bGreaterThan] .WalkContinue
  else
    match node.node.data with
    | .autoLink _ _ => Result.ret ([bLessThan] ++ env.autoLinkURL source node.node) .WalkContinue
    | _ => Result.panic [bLessThan] "interface conversion: ast.Node is not *ast.AutoLink"

/-! ## Block renderers

A method that calls `r.renderChildren(w2, source, n)` takes the outcome of
that call as its argument `kids`: the stream `renderChildren` writes to the
writer it is given, and the error it returns. -/

/-- Modelled from the spec: the helper `repeat(w, b, n)`, which is not in the
two files: it writes the byte `b` to `w`, `n` times. -/
def repeatByte (b : Byte) (n : Int) : Bytes := List.replicate n.toNat b

/-- Modelled from the spec: the text `fmt.Sprintf(preOListItemFormat, n)` for
the constant `preOListItemFormat`, which is not in the two files: the
decimal index, a full stop and a space. -/
def sprintfOListItem (n : Int) : Bytes :=
  (toString n).toList.map Char.toNat ++ [46, 32]

/-- The method `renderHeading`. -/
def NodeRenderer.renderHeading (_r : NodeRenderer) (_source : Bytes) (node : Loc)
    (entering : Bool) : Result :=
  if !entering then Result.ret twoNewLines .WalkContinue
  else
    match node.node.data with
    | .heading level => Result.ret (repeatByte bHash level ++ [bSpace]) .WalkContinue
    | _ => Result.panic [] "interface conversion: ast.Node is not *ast.Heading"

/-- The method `renderBlockquote`. -/
def NodeRenderer.renderBlockquote (env : Env) (_r : NodeRenderer)
    (kids : Bytes × Option Failure) (_source : Bytes) (n : Loc) (entering : Bool) : Result :=
  if !entering then Result.ret twoNewLines .WalkContinue
  else
    let indent := env.getIndentOfListItem n
    let sep : Bytes := if indent > 0 then [bNewLine] else []
    let out := sep ++ env.indentWriter indent (env.blockquoteWriter kids.1)
    match kids.2 with
    | some e => ⟨out, .WalkStop, some e⟩
    | none => Result.ret out .WalkSkipChildren

/-- The method `renderFencedCodeBlock`. -/
def NodeRenderer.renderFencedCodeBlock (env : Env) (_r : NodeRenderer) (source : Bytes)
    (node : Loc) (entering : Bool) : Result :=
  if !entering then Result.ret (codeBlockFence ++ twoNewLines) .WalkContinue
  else
    let lang := env.getLanguage source node.node
    Result.ret (codeBlockFence ++ lang ++ [bNewLine] ++
      env.writeFormattedLines source node.node lang) .WalkContinue

/-- The method `renderCodeBlock`. -/
def NodeRenderer.renderCodeBlock (env : Env) (r : NodeRenderer) (source : Bytes) (n : Loc)
    (entering : Bool) : Result :=
  let indent := env.getIndentOfListItem n
  if indent = 0 then r.renderFencedCodeBlock env source n entering
  else if !entering then Result.ret [] .WalkContinue
  else
    match segmentValues source n.node.data.Lines with
    | none => Result.panic [bNewLine] sliceBoundsPanic
    | some lines =>
      Result.ret ([bNewLine] ++ env.indentWriter (indent + 1) (env.shiftLeft lines).flatten)
        .WalkContinue

/-- The method `renderHTMLBlock`. -/
def NodeRenderer.renderHTMLBlock (env : Env) (_r : NodeRenderer) (source : Bytes) (node : Loc)
    (entering : Bool) : Result :=
  if !entering then
    match node.node.data with
    | .htmlBlock _ cl =>
      if cl.start > -1 then
        match cl.Value source with
        | none => Result.panic [] sliceBoundsPanic
        | some value => Result.ret (value ++ [bNewLine]) .WalkContinue
      else Result.ret [bNewLine] .WalkContinue
    | _ => Result.panic [] "interface conversion: ast.Node is not *ast.HTMLBlock"
  else Result.ret (env.writeFormattedLines source node.node env.langHTML) .WalkContinue

/-- The method `renderList`. -/
def NodeRenderer.renderList (_r : NodeRenderer) (_source : Bytes) (node : Loc)
    (entering : Bool) : Result :=
  if !entering then
    match node.Parent with
    | none => Result.panic [] "nil pointer dereference"
    | some p =>
      if p.Kind ≠ .ListItem then Result.ret twoNewLines .WalkContinue
      else Result.ret [] .WalkContinue
  else Result.ret [] .WalkContinue

/-- The method `renderListItem`. -/
def NodeRenderer.renderListItem (env : Env) (_r : NodeRenderer)
    (kids : Bytes × Option Failure) (_source : Bytes) (node : Loc) (entering : Bool) : Result :=
  let indent := env.getIndentOfListItem node
  if !entering then
    if node.NextSibling.isSome &&
        (match node.LastChild with
         | none => true
         | some c => decide (c.Kind ≠ .Blockquote)) then
      Result.ret [bNewLine] .WalkSkipChildren
    else Result.ret [] .WalkSkipChildren
  else
    match (node.Parent.map (fun p => p.node.data) : Option NodeData) with
    | some (.list ordered _) =>
      let marker := if !ordered then preUListItem else sprintfOListItem (env.numElement node)
      let out := env.indentWriter indent (marker ++ kids.1)
      match kids.2 with
      | some e => ⟨out, .WalkStop, some e⟩
      | none => Result.ret out .WalkSkipChildren
    | _ => Result.panic [] "interface conversion: ast.Node is not *ast.List"

/-- The method `renderParagraph`. -/
def NodeRenderer.renderParagraph (env : Env) (_r : NodeRenderer)
    (kids : Bytes × Option Failure) (_source : Bytes) (n : Loc) (entering : Bool) : Result :=
  let indent := env.getIndentOfListItem n
  let partOfList := decide (indent > 0)
  if !entering then
    if partOfList && n.NextSibling.isSome then Result.ret [bNewLine] .WalkContinue
    else if !partOfList then Result.ret twoNewLines .WalkContinue
    else Result.ret [] .WalkContinue
  else if partOfList && n.PreviousSibling.isSome then
    match kids.2 with
    | some e => ⟨[bNewLine] ++ env.indentWriter indent kids.1, .WalkStop, some e⟩
    | none =>
      Result.ret ([bNewLine] ++ env.indentWriter indent kids.1 ++ [bNewLine]) .WalkSkipChildren
  else
    match kids.2 with
    | some e => ⟨kids.1, .WalkStop, some e⟩
    | none => Result.ret kids.1 .WalkSkipChildren

/-- The method `renderTextBlock`. -/
def NodeRenderer.renderTextBlock (_r : NodeRenderer) (_source : Bytes) (n : Loc)
    (entering : Bool) : Result :=
  if !entering && n.NextSibling.isSome then Result.ret [bNewLine] .WalkContinue
  else Result.ret [] .WalkContinue

/-- The method `renderThematicBreak`. -/
def NodeRenderer.renderThematicBreak (env : Env) (_r : NodeRenderer) (_source : Bytes)
    (_n : Loc) (entering : Bool) : Result :=
  if !entering then Result.ret twoNewLines .WalkContinue
  else Result.ret env.thematicBreak .WalkContinue

/-! ## The rendering table -/

/-- The Go map assignment `m[kind] = f`. -/
def NodeRendererFuncs.set {α : Type} (m : NodeRendererFuncs α) (kind : NodeKind) (f : α) :
    NodeRendererFuncs α :=
  if m.any (fun e => e.1 == kind) then
    m.map (fun e => if e.1 == kind then (kind, f) else e)
  else m ++ [(kind, f)]

/-- The Go map lookup `m[kind]`, `none` for a missing key. -/
def NodeRendererFuncs.get? {α : Type} (m : NodeRendererFuncs α) (kind : NodeKind) : Option α :=
  (m.find? (fun e => e.1 == kind)).map (fun e => e.2)

/-- The map literal `funcs` at the start of `RegisterFuncs`. -/
def defaultFuncs : NodeRendererFuncs FuncValue :=
  [ (.Heading, .method .renderHeading),
    (.Blockquote, .method .renderBlockquote),
    (.CodeBlock, .method .renderCodeBlock),
    (.FencedCodeBlock, .method .renderFencedCodeBlock),
    (.HTMLBlock, .method .renderHTMLBlock),
    (.List, .method .renderList),
    (.ListItem, .method .renderListItem),
    (.Paragraph, .method .renderParagraph),
    (.TextBlock, .method .renderTextBlock),
    (.ThematicBreak, .method .renderThematicBreak),
    (.Strikethrough, .method .renderStrikethrough),
    (.AutoLink, .method .renderAutoLink),
    (.CodeSpan, .method .renderCodeSpan),
    (.Emphasis, .method .renderEmphasis),
    (.Image, .method .renderImage),
    (.Link, .method .renderLink),
    (.RawHTML, .method .renderRawHTML),
    (.Text, .method .renderText),
    (.String, .method .renderString) ]

/-- The method `RegisterFuncs`: the calls `reg.Register(kind, f)` it makes,
in order.  A Go `range` over a map visits the entries in an unspecified
order: `rangeOverrides` and `rangeFuncs` give the order in which the two
loops visit the entries of the map they range over. -/
def NodeRenderer.RegisterFuncs (r : NodeRenderer)
    (rangeOverrides : NodeRendererFuncs NodeRendererFunc → NodeRendererFuncs NodeRendererFunc)
    (rangeFuncs : NodeRendererFuncs FuncValue → NodeRendererFuncs FuncValue) :
    List (NodeKind × FuncValue) :=
  let funcs := (rangeOverrides r.renderFuncsOverrides).foldl
    (fun funcs e => funcs.set e.1 (FuncValue.func e.2)) defaultFuncs
  rangeFuncs funcs

/-- Modelled from the spec: the registerer of the traversal engine, which is
not in the repository: every `Register(kind, f)` stores `f` under `kind`,
replacing what was stored there. -/
def registerAll (calls : List (NodeKind × FuncValue)) : NodeRendererFuncs FuncValue :=
  calls.foldl (fun tbl e => tbl.set e.1 e.2) []

/-- The table the traversal uses for the renderer `r`: what `RegisterFuncs`
registers (with the two maps visited in stored order). -/
def NodeRenderer.table (r : NodeRenderer) : NodeRendererFuncs FuncValue :=
  registerAll (r.RegisterFuncs id id)

/-- Calling the method value `r.m`. -/
def NodeRenderer.callMethod (env : Env) (r : NodeRenderer) (kids : Bytes × Option Failure) :
    Method → NodeRendererFunc
  | .renderHeading => r.renderHeading
  | .renderBlockquote => r.renderBlockquote env kids
  | .renderCodeBlock => r.renderCodeBlock env
  | .renderFencedCodeBlock => r.renderFencedCodeBlock env
  | .renderHTMLBlock => r.renderHTMLBlock env
  | .renderList => r.renderList
  | .renderListItem => r.renderListItem env kids
  | .renderParagraph => r.renderParagraph env kids
  | .renderTextBlock => r.renderTextBlock
  | .renderThematicBreak => r.renderThematicBreak env
  | .renderStrikethrough => r.renderStrikethrough
  | .renderAutoLink => r.renderAutoLink env
  | .renderCodeSpan => r.renderCodeSpan
  | .renderEmphasis => r.renderEmphasis env
  | .renderImage => r.renderImage env
  | .renderLink => r.renderLink
  | .renderRawHTML => r.renderRawHTML env
  | .renderText => r.renderText
  | .renderString => r.renderString

/-- Calling a function value of a rendering table. -/
def NodeRenderer.call (env : Env) (r : NodeRenderer) (kids : Bytes × Option Failure) :
    FuncValue → NodeRendererFunc
  | .method m => r.callMethod env kids m
  | .func f => f

/-! ## Traversal -/

/-- Modelled from the spec: the walker the traversal engine (not in the
repository) applies to every node: the function registered for the kind of
the node, and "continue" without output for a kind with no function. -/
def NodeRenderer.walker (env : Env) (r : NodeRenderer) (kids : Bytes × Option Failure)
    (source : Bytes) (n : Loc) (entering : Bool) : Result :=
  match r.table.get? n.Kind with
  | some f => r.call env kids f source n entering
  | none => Result.ret [] .WalkContinue

/-- Modelled from the spec: the visits of the children of a node in stored
order during the walk of that node, given the walk of each child: the visit
ends at the first child whose walk fails or stops. -/
def walkChildren : List Result → Result
  | [] => Result.ret [] .WalkContinue
  | k :: rest =>
    if k.err.isSome || k.status = .WalkStop then ⟨k.out, .WalkStop, k.err⟩
    else
      let r := walkChildren rest
      ⟨k.out ++ r.out, r.status, r.err⟩

/-- Modelled from the spec: the method `renderChildren(w, source, n)`, which
is not in the two files: it renders every child of `n` in stored order by a
traversal of its own, up to the first error.  The argument holds the walk of
each child; the result is the stream written to `w` and the error returned. -/
def renderChildren : List Result → Bytes × Option Failure
  | [] => ([], none)
  | k :: rest =>
    match k.err with
    | some e => (k.out, some e)
    | none => (k.out ++ (renderChildren rest).1, (renderChildren rest).2)

/-- Modelled from the spec: the depth-first walk of one node by the traversal
engine (not in the repository), given the walker and the walk of each child:
the entering call; the children, unless it returned skip-children; the
leaving call.  An error or a stop status ends the walk. -/
def walkStep (walker : Bool → Result) (kids : List Result) : Result :=
  let r1 := walker true
  if r1.err.isSome || r1.status = .WalkStop then ⟨r1.out, .WalkStop, r1.err⟩
  else
    let mid := if r1.status = .WalkSkipChildren then Result.ret [] .WalkContinue
      else walkChildren kids
    if mid.err.isSome || mid.status = .WalkStop then ⟨r1.out ++ mid.out, .WalkStop, mid.err⟩
    else
      let r2 := walker false
      if r2.err.isSome || r2.status = .WalkStop then
        ⟨r1.out ++ mid.out ++ r2.out, .WalkStop, r2.err⟩
      else ⟨r1.out ++ mid.out ++ r2.out, .WalkContinue, none⟩

mutual
/-- The walk of the subtree `node` at position `ctx` with the table of `r`. -/
def walkNode (env : Env) (r : NodeRenderer) (source : Bytes) (ctx : List Crumb) : Node → Result
  | .mk d cs =>
    let kids := walkNodes env r source d ctx [] cs
    walkStep (r.walker env (renderChildren kids) source ⟨.mk d cs, ctx⟩) kids
/-- The walk of each of the children `cs` of a node with fields `d` at
position `ctx`, where `left` holds the children before `cs`, nearest first. -/
def walkNodes (env : Env) (r : NodeRenderer) (source : Bytes) (d : NodeData) (ctx : List Crumb)
    (left : List Node) : List Node → List Result
  | [] => []
  | c :: rest =>
    walkNode env r source (⟨d, left, rest⟩ :: ctx) c ::
      walkNodes env r source d ctx (c :: left) rest
end

/-- Modelled from the spec: the call `renderer.NewRenderer(opts...).Render(w, src, n)`
of the traversal engine for the node renderer `r`: the walk from `n`. -/
def rendererRender (env : Env) (r : NodeRenderer) (source : Bytes) (n : Loc) : Result :=
  walkNode env r source n.ctx n.node

/-! ## The trim writer -/

/-- Modelled from the spec: the state of `writers.NewTrimWriter(w, cutset)`,
which is not in the repository files at hand: the bytes forwarded to `w` so
far, and the withheld run of trailing cut-set bytes. -/
structure TrimWriter where
  forwarded : Bytes
  held : Bytes
  deriving DecidableEq, Repr

/-- Modelled from the spec: writing one byte to the trim writer: a cut-set
byte joins the withheld run; any other byte is forwarded after the run. -/
def TrimWriter.WriteByte (cutset : Bytes) (t : TrimWriter) (b : Byte) : TrimWriter :=
  if cutset.contains b then ⟨t.forwarded, t.held ++ [b]⟩
  else ⟨t.forwarded ++ t.held ++ [b], []⟩

/-- Modelled from the spec: writing a stream to the trim writer. -/
def TrimWriter.Write (cutset : Bytes) (t : TrimWriter) (p : Bytes) : TrimWriter :=
  p.foldl (TrimWriter.WriteByte cutset) t

/-- Modelled from the spec: the bytes that reach `w` when `stream` is written
to a fresh `writers.NewTrimWriter(w, cutset)`. -/
def trimWriter (cutset : Bytes) (stream : Bytes) : Bytes :=
  (TrimWriter.Write cutset ⟨[], []⟩ stream).forwarded

/-! ## Front matter and `Render` -/

/-- The first statement of `renderFrontMatter`: a `parser.Context` is
replaced by the items `meta.GetItems` finds in it. -/
def resolveContext : MetaData → FrontMatter
  | .context items => .mapSlice items
  | .value fm => fm

/-- The function `renderFrontMatter(w, fm)` for a writer that accepts every
write (the `bytes.Buffer` of `Render`): the bytes written and the error. -/
def renderFrontMatter (env : Env) (fm : MetaData) : Bytes × Option Error :=
  match resolveContext fm with
  | .nil => ([], none)
  | .mapSlice m =>
    if m.length = 0 then ([], none)
    else
      match env.encodeV2 m with
      | (enc, some e) => (startYAMLFrontmatter ++ enc, some (Error.encoding "yaml.MapSlice" e))
      | (enc, none) => (startYAMLFrontmatter ++ enc ++ endYAMLFrontmatter, none)
  | .other typeName v =>
    match env.encodeV3 v with
    | (enc, some e) => (startYAMLFrontmatter ++ enc, some (Error.encoding typeName e))
    | (enc, none) => (startYAMLFrontmatter ++ enc ++ endYAMLFrontmatter, none)

/-- The function `Render(metaData, src, doc, renderFuncsOverrides, options...)`,
where `cfg` is the configuration the options give the node renderer.  The
result is the returned bytes, or the returned error, or a panic. -/
def Render (env : Env) (cfg : Config) (metaData : MetaData) (src : Bytes) (doc : Loc)
    (renderFuncsOverrides : NodeRendererFuncs NodeRendererFunc) : Except Failure Bytes :=
  match renderFrontMatter env metaData with
  | (_, some e) => .error (Failure.error e)
  | (b, none) =>
    let nr := NewNodeRenderer cfg renderFuncsOverrides
    let body := rendererRender env nr src doc
    match body.err with
    | some (Failure.error e) => .error (Failure.error (Error.wrap e "rendering markdown"))
    | some (Failure.panic msg) => .error (Failure.panic msg)
    | none => .ok (b ++ trimWriter sNewLine body.out ++ newLine)

/-! ## A concrete environment

The theorems below hold for every `Env`.  To evaluate the embedding on
concrete inputs, `exampleEnv` fills the fields with simple stand-ins: a YAML
encoder for flat mappings of scalars, indentation by spaces after every line
break, `> ` as the quote marker, and a code formatter that copies the lines. -/

/-- The bytes of a string of ASCII characters. -/
def bytesOf (s : String) : Bytes := s.toList.map Char.toNat

/-- A scalar as the example YAML encoder prints it. -/
def yamlScalar : Value → Bytes
  | .null => bytesOf "null"
  | .bool true => bytesOf "true"
  | .bool false => bytesOf "false"
  | .int i => bytesOf (toString i)
  | .str s => bytesOf s
  | .seq _ => bytesOf "[]"
  | .map _ => [123, 125]

/-- A flat mapping as the example YAML encoder prints it: one line
`key: value` per item, in stored order. -/
def yamlLines : MapSlice → Bytes
  | [] => []
  | (k, v) :: rest => yamlScalar k ++ [58, 32] ++ yamlScalar v ++ [10] ++ yamlLines rest

/-- The example encoder for any value: an empty mapping is a pair of braces. -/
def yamlValue : Value → Bytes
  | .map [] => [123, 125, 10]
  | .map entries => yamlLines entries
  | v => yamlScalar v ++ [10]

/-- Writing `stream` through an indenting writer: `width` spaces after every
line break. -/
def indentAfterNewline (width : Int) : Bytes → Bytes
  | [] => []
  | b :: rest =>
    if b = 10 then 10 :: (List.replicate width.toNat 32 ++ indentAfterNewline width rest)
    else b :: indentAfterNewline width rest

/-- Writing `stream` through a quoting writer: `> ` before the first byte and
after every line break. -/
def quoteLines (stream : Bytes) : Bytes :=
  if stream.isEmpty then []
  else [62, 32] ++ stream.flatMap (fun b => if b = 10 then [10, 62, 32] else [b])

/-- The number of list items among the crumbs of a position. -/
def listItemDepth : List Crumb → Nat
  | [] => 0
  | c :: cs => (if c.data = NodeData.listItem then 1 else 0) + listItemDepth cs

/-- The environment used to evaluate the embedding on concrete inputs. -/
def exampleEnv : Env where
  encodeV2 := fun m => (yamlLines m, none)
  encodeV3 := fun v => (yamlValue v, none)
  getIndentOfListItem := fun n =>
    2 * ((if n.node.data = NodeData.listItem then 1 else 0) + listItemDepth n.ctx : Nat)
  indentWriter := indentAfterNewline
  blockquoteWriter := quoteLines
  numElement := fun n =>
    match n.ctx with
    | [] => 1
    | c :: _ => (c.left.length + 1 : Nat)
  shiftLeft := fun lines => lines
  getLanguage := fun source node =>
    match node.data with
    | .fencedCodeBlock (some info) _ => (info.Value source).getD []
    | _ => []
  writeFormattedLines := fun source node _ => (writeSegments source node.data.Lines).1
  langHTML := bytesOf "html"
  thematicBreak := [45, 45, 45]
  tItalic := [27, 91, 51, 109]
  tBold := [27, 91, 49, 109]
  tUnderline := [27, 91, 52, 109]
  tReset := [27, 91, 48, 109]
  nodeText := fun source node => codeSpanContent source node.children
  autoLinkURL := fun source node =>
    match node.data with
    | .autoLink value _ => (value.Value source).getD []
    | _ => []

/-- An encoder that rejects every value, for evaluating the failure paths. -/
def failingEnv : Env :=
  { exampleEnv with
    encodeV2 := fun _ => ([], some (Error.new "yaml: unsupported value"))
    encodeV3 := fun _ => ([], some (Error.new "yaml: unsupported value")) }

/-- A `*ast.Text` node over the one-byte source segment starting at `i`. -/
def textAt (i : Nat) : Node := Node.mk (.text ⟨i, i + 1, 0⟩ false false false) []

/-- An `*ast.Emphasis` node of level `level` with the given children. -/
def emph (level : Int) (children : List Node) : Node := Node.mk (.emphasis level) children

/-- The rendering table in the words of the specification: the override for
a kind that has one, and the default function otherwise. -/
def specTable (overrides : NodeRendererFuncs NodeRendererFunc) (kind : NodeKind) :
    Option FuncValue :=
  match overrides.get? kind with
  | some g => some (FuncValue.func g)
  | none => defaultFuncs.get? kind

/-- The document with one paragraph holding two adjacent bold nodes, over the
source `ab`: the first wraps the text `a`, the second the text `b`. -/
def boldPair : Node :=
  Node.mk .document [Node.mk .paragraph [emph 2 [textAt 0], emph 2 [textAt 1]]]

/-- The handle of the first bold node of `boldPair`. -/
def firstBold : Loc :=
  ⟨emph 2 [textAt 0],
    [⟨NodeData.paragraph, [], [emph 2 [textAt 1]]⟩, ⟨NodeData.document, [], []⟩]⟩

/-- The handle of the second bold node of `boldPair`. -/
def secondBold : Loc :=
  ⟨emph 2 [textAt 1],
    [⟨NodeData.paragraph, [emph 2 [textAt 0]], []⟩, ⟨NodeData.document, [], []⟩]⟩

/-- The handle of a bold node whose previous sibling is an italic node that
wraps a single bold node, in a paragraph of a document. -/
def boldAfterNested : Loc :=
  ⟨emph 2 [textAt 1],
    [⟨NodeData.paragraph, [emph 1 [emph 2 [textAt 0]]], []⟩, ⟨NodeData.document, [], []⟩]⟩

/-- The handle of an underline node (level 3) that is the only child of a
paragraph of a document. -/
def underlined : Loc :=
  ⟨emph 3 [textAt 0], [⟨NodeData.paragraph, [], []⟩, ⟨NodeData.document, [], []⟩]⟩

/-- The handle of a code span with two text children over a two-byte source:
the first child is the first byte, the second child the second byte. -/
def codeSpanTwoTexts : Loc :=
  ⟨Node.mk .codeSpan [textAt 0, textAt 1],
    [⟨NodeData.paragraph, [], []⟩, ⟨NodeData.document, [], []⟩]⟩

/-- The handle of the first of two items of an unordered list in a document;
each item holds one paragraph with one text. -/
def firstItem : Loc :=
  ⟨Node.mk .listItem [Node.mk .paragraph [textAt 0]],
    [⟨NodeData.list false 1, [], [Node.mk .listItem [Node.mk .paragraph [textAt 1]]]⟩,
      ⟨NodeData.document, [], []⟩]⟩

/-- The handle of the second of two paragraphs of a list item. -/
def secondParagraph : Loc :=
  ⟨Node.mk .paragraph [textAt 1],
    [⟨NodeData.listItem, [Node.mk .paragraph [textAt 0]], []⟩,
      ⟨NodeData.list false 1, [], []⟩, ⟨NodeData.document, [], []⟩]⟩

/-- The handle of a block quote with one paragraph, directly in a document. -/
def quoteInDocument : Loc :=
  ⟨Node.mk .blockquote [Node.mk .paragraph [textAt 0]], [⟨NodeData.document, [], []⟩]⟩

/-- The handle of an indented code block with one line, the first two bytes
of the source, directly in a document. -/
def codeBlockInDocument : Loc :=
  ⟨Node.mk (.codeBlock [⟨0, 2, 0⟩]) [], [⟨NodeData.document, [], []⟩]⟩

/-- The heading of level 2 whose only child is the text of the first five
bytes of the source. -/
def headingTitle : Node :=
  Node.mk (.heading 2) [Node.mk (.text ⟨0, 5, 0⟩ false false false) []]

/-- The handle of a string node `a` whose next sibling is a list, in a list item. -/
def stringBeforeList : Loc :=
  ⟨Node.mk (.string [97]) [],
    [⟨NodeData.listItem, [], [Node.mk (.list false 1) []]⟩,
      ⟨NodeData.list false 1, [], []⟩, ⟨NodeData.document, [], []⟩]⟩

/-- The function `Format(src)`: the source is parsed and the tree rendered
with the parser context as metadata and no overrides.  `parse` is the
external parser (`myParser.Parse` with the metadata extension): it gives the
front-matter items stored in the context and the document; `cfg` is the
configuration `NewConfig()` of a renderer without options. -/
def Format (env : Env) (cfg : Config) (parse : Bytes → MapSlice × Node) (src : Bytes) :
    Except Failure Bytes :=
  Render env cfg (MetaData.context (parse src).1) src (Loc.root (parse src).2) []

/-- The document that holds one paragraph with one code span over the source
segment from `start` to `stop`. -/
def codeSpanDocument (start stop : Nat) : Node :=
  Node.mk .document
    [Node.mk .paragraph [Node.mk .codeSpan [Node.mk (.text ⟨start, stop, 0⟩ false false false) []]]]

/-- The document with one paragraph that holds an italic node wrapping a
single bold node over the first source byte, followed by a bold node over
the second source byte. -/
def nestedThenBold : Node :=
  Node.mk .document [Node.mk .paragraph [emph 1 [emph 2 [textAt 0]], emph 2 [textAt 1]]]

/-- The document with one paragraph that holds a bold node over the first
source byte, followed by a link to `u` whose children are a bold node over
the second source byte and a text over the third. -/
def boldThenLink : Node :=
  Node.mk .document
    [Node.mk .paragraph
      [emph 2 [textAt 0], Node.mk (.link [117] []) [emph 2 [textAt 1], textAt 2]]]

/-- The handle of the bold node inside the link of `boldThenLink`. -/
def boldInLink : Loc :=
  ⟨emph 2 [textAt 1],
    [⟨NodeData.link [117] [], [], [textAt 2]⟩,
      ⟨NodeData.paragraph, [emph 2 [textAt 0]], []⟩, ⟨NodeData.document, [], []⟩]⟩

/-- The handle of a bold node over the first source byte that is the only
child of a paragraph in a document. -/
def loneBold : Loc :=
  ⟨emph 2 [textAt 0], [⟨NodeData.paragraph, [], []⟩, ⟨NodeData.document, [], []⟩]⟩

/-- Whether an optional node satisfies a criterion (a nil node does not). -/
def nodeHas (n : Option Loc) (criterion : Loc → Bool) : Bool :=
  match n with
  | none => false
  | some m => criterion m

/-- The tree condition "the node has no same-level adjacent sibling or
ancestor" in the words of the specification: neither the previous nor the
next sibling of the node is an Emphasis of level `level`, and no ancestor of
the node is one. -/
def noSameLevelSiblingOrAncestor (n : Loc) (level : Int) : Bool :=
  !nodeHas n.PreviousSibling (sameEmphasis level) &&
    !nodeHas n.NextSibling (sameEmphasis level) &&
    !ancestorHas n (sameEmphasis level)

/-- The tree condition "no Emphasis of level `level` near the node": neither
adjacent sibling of the node is one or has one as its only child, and no
ancestor of the node is one, or has an adjacent sibling that is one or has
one as its only child. -/
def noSameLevelNearby (n : Loc) (level : Int) : Bool :=
  !selfOrOnlyChildHas n.PreviousSibling (sameEmphasis level) &&
    !selfOrOnlyChildHas n.NextSibling (sameEmphasis level) &&
    !ancestorHas n (emphasisAncestorCriterion level)

/-- The length of the run of grave accents at the start of a byte string. -/
def graveAccentRun (b : Bytes) : Nat := (b.takeWhile (fun x => x == bGraveAccent)).length

/-- The handle of a code span in a paragraph whose only child is the text of
the first two bytes of the source. -/
def codeSpanOneText : Loc :=
  ⟨Node.mk .codeSpan [Node.mk (.text ⟨0, 2, 0⟩ false false false) []],
    [⟨NodeData.paragraph, [], []⟩, ⟨NodeData.document, [], []⟩]⟩

/-- The stream of the children `cs` of a node with fields `d` at position
`ctx`: what the walk of each child writes, once per child, in stored order. -/
def childrenStream (env : Env) (r : NodeRenderer) (source : Bytes) (d : NodeData)
    (ctx : List Crumb) (cs : List Node) : Bytes :=
  ((walkNodes env r source d ctx [] cs).map Result.out).flatten

deriving instance DecidableEq for Except

end Markdown

/-! # The writer upgrade of `faetools/format/writers` (`upgrade.go`) -/

namespace Writers

open Markdown (Byte Bytes)

/-- A Go value used as an `io.Writer`, by the methods of its dynamic type
over the state `σ` of the sink: `Write` always, `WriteByte` and `WriteString`
when the type has them.  A string argument is given by its bytes; `ε` is the
type of errors. -/
structure Sink (σ ε : Type) where
  Write : Bytes → σ → (Int × Option ε) × σ
  WriteByte : Option (Byte → σ → Option ε × σ)
  WriteString : Option (Bytes → σ → (Int × Option ε) × σ)

/-- The interface `Writer`: an `io.Writer` that is also a `ByteWriter` and a
`StringWriter`. -/
structure Writer (σ ε : Type) where
  Write : Bytes → σ → (Int × Option ε) × σ
  WriteByte : Byte → σ → Option ε × σ
  WriteString : Bytes → σ → (Int × Option ε) × σ

/-- A `Writer` used as an `io.Writer`. -/
def Writer.toSink {σ ε : Type} (w : Writer σ ε) : Sink σ ε :=
  ⟨w.Write, some w.WriteByte, some w.WriteString⟩

/-- The type assertion `w.(Writer)`: `w` itself when its type has all three
methods. -/
def Sink.asWriter {σ ε : Type} (w : Sink σ ε) : Option (Writer σ ε) :=
  match w.WriteByte, w.WriteString with
  | some bw, some sw => some ⟨w.Write, bw, sw⟩
  | _, _ => none

/-- The method `(*byteWriter).WriteByte` of the wrapper around `w`. -/
def byteWriter.WriteByte {σ ε : Type} (w : Sink σ ε) (c : Byte) (s : σ) : Option ε × σ :=
  ((w.Write [c] s).1.2, (w.Write [c] s).2)

/-- The method `(*stringWriter).WriteString` of the wrapper around `w`. -/
def stringWriter.WriteString {σ ε : Type} (w : Sink σ ε) (str : Bytes) (s : σ) :
    (Int × Option ε) × σ :=
  w.Write str s

/-- The function `Upgrade(w)`. -/
def Upgrade {σ ε : Type} (w : Sink σ ε) : Writer σ ε :=
  match w.asWriter with
  | some writer => writer
  | none =>
    { Write := w.Write
      WriteByte :=
        match w.WriteByte with
        | some bw => bw
        | none => byteWriter.WriteByte w
      WriteString :=
        match w.WriteString with
        | some sw => sw
        | none => stringWriter.WriteString w }

/-- A call received by the logging sink. -/
inductive Call where
  | write (p : Bytes)
  | writeByte (c : Byte)
  | writeString (s : Bytes)
  deriving DecidableEq, Repr

/-- A sink with only `Write`, which records its calls, accepts every byte
and never fails. -/
def plainSink : Sink (List Call) String :=
  ⟨fun p log => ((p.length, none), log ++ [Call.write p]), none, none⟩

/-- A sink with `Write` and `WriteString` but no `WriteByte`, which records
its calls. -/
def stringSink : Sink (List Call) String :=
  ⟨fun p log => ((p.length, none), log ++ [Call.write p]), none,
    some (fun s log => ((s.length, none), log ++ [Call.writeString s]))⟩

/-- A sink with all three methods, which records its calls. -/
def fullSink : Sink (List Call) String :=
  ⟨fun p log => ((p.length, none), log ++ [Call.write p]),
    some (fun c log => (none, log ++ [Call.writeByte c])),
    some (fun s log => ((s.length, none), log ++ [Call.writeString s]))⟩

end Writers

/-! # The generator `gen/generate.go` -/

namespace Gen

/-- The string type `notion.PropertyType`. -/
abbrev PropertyType := String

/-- Modelled from the spec: the constant `notion.PropertyTypeTitle`, declared
in a file of the vendored package that is not at hand: the type name `title`. -/
def PropertyTypeTitle : PropertyType := "title"

/-- Modelled from the spec: the constant `notion.PropertyTypeRichText`: the
type name `rich_text`. -/
def PropertyTypeRichText : PropertyType := "rich_text"

/-- Modelled from the spec: the constant `notion.PropertyTypeSelect`: the
type name `select`. -/
def PropertyTypeSelect : PropertyType := "select"

/-- Modelled from the spec: the constant `notion.PropertyTypeCheckbox`: the
type name `checkbox`. -/
def PropertyTypeCheckbox : PropertyType := "checkbox"

/-- Modelled from the spec: the constant `notion.PropertyTypeMultiSelect`: the
type name `multi_select`. -/
def PropertyTypeMultiSelect : PropertyType := "multi_select"

/-- Modelled from the spec: the constant `notion.PropertyTypeNumber`: the
type name `number`. -/
def PropertyTypeNumber : PropertyType := "number"

/-- Modelled from the spec: the constant `notion.PropertyTypeRelation`: the
type name `relation`. -/
def PropertyTypeRelation : PropertyType := "relation"

/-- Modelled from the spec: the constant `notion.NumberConfigFormatNumber`:
the format name `number` of a plain number. -/
def NumberConfigFormatNumber : String := "number"

/-- The struct `notion.NumberConfig`, of which the generator reads `Format`. -/
structure NumberConfig where
  Format : String
  deriving DecidableEq, Repr

/-- The struct `notion.PropertyMeta`, with the fields the generator reads:
`Type` (here `type`) and the pointer `Number`, where `none` is nil. -/
structure PropertyMeta where
  type : PropertyType
  Number : Option NumberConfig
  deriving DecidableEq, Repr

/-- The struct `property`. -/
structure property where
  Key : String
  meta : PropertyMeta
  deriving DecidableEq, Repr

/-- The method `property.GoType`, where `toPascal` is `strcase.ToPascal` of
the external library; `none` is the nil pointer dereference of
`p.meta.Number.Format` for a missing number configuration. -/
def property.GoType (toPascal : String → String) (p : property) : Option String :=
  if p.meta.type = PropertyTypeTitle ∨ p.meta.type = PropertyTypeRichText then
    some "notion.RichTexts"
  else if p.meta.type = PropertyTypeSelect then some "notion.SelectValue"
  else if p.meta.type = PropertyTypeCheckbox then some "bool"
  else if p.meta.type = PropertyTypeMultiSelect then some "notion.PropertyOptions"
  else if p.meta.type = PropertyTypeNumber then
    match p.meta.Number with
    | none => none
    | some num => if num.Format = NumberConfigFormatNumber then some "int" else some "float32"
  else if p.meta.type = PropertyTypeRelation then some "notion.References"
  else some ("notion." ++ toPascal p.meta.type)

/-- The method `property.IsInt`. -/
def property.IsInt (p : property) : Bool :=
  match p.meta.Number with
  | none => false
  | some num => decide (num.Format = NumberConfigFormatNumber)

/-- A stand-in for `strcase.ToPascal` on lower-case names with underscores,
for evaluating `GoType` on concrete inputs: every word starts with a capital
letter and the underscores are dropped. -/
def pascalChars : Bool → List Char → List Char
  | _, [] => []
  | up, c :: rest =>
    if c = '_' then pascalChars true rest
    else (if up then c.toUpper else c) :: pascalChars false rest

/-- The stand-in for `strcase.ToPascal` on strings. -/
def examplePascal (s : String) : String := String.mk (pascalChars true s.toList)

/-- The Go map type `notion.PropertyMetaMap`, as its entries; a map has at
most one entry per key. -/
abbrev PropertyMetaMap := List (String × PropertyMeta)

/-- The struct `ctxPropertyValues`, the data `PropertyValues` hands to the
template. -/
structure ctxPropertyValues where
  PkgName : String
  Properties : List property
  deriving DecidableEq, Repr

/-- The comparison `props[i].Key < props[j].Key` that `PropertyValues`
passes to `sort.Slice`: the lexicographic order of Go strings, here on the
characters of the two keys. -/
def lessKey (a b : property) : Bool := decide (a.Key.toList < b.Key.toList)

/-- The function `PropertyValues(fs, pkgName, m)` up to the call of
`g.WriteTemplate`: the template data it builds.  `title` is `strings.Title`
and `sortSlice` is `sort.Slice` of the standard library; a Go `range` over a
map visits the entries in an unspecified order, given by `range`. -/
def PropertyValues (title : String → String)
    (sortSlice : (property → property → Bool) → List property → List property)
    (range : PropertyMetaMap → PropertyMetaMap) (pkgName : String) (m : PropertyMetaMap) :
    ctxPropertyValues :=
  let props := (range m).map (fun kv => (⟨title kv.1, kv.2⟩ : property))
  ⟨pkgName, sortSlice lessKey props⟩

/-- The inner loop of the insertion sort of the Go library: `x` moves left
past every element it is less than.  The sorted prefix is given from right
to left. -/
def insertLeft {α : Type} (less : α → α → Bool) (x : α) : List α → List α
  | [] => [x]
  | y :: ys => if less x y then y :: insertLeft less x ys else x :: y :: ys

/-- The insertion sort that `sort.Slice` of the Go standard library runs on
a slice of fewer than 12 elements. -/
def insertionSort {α : Type} (less : α → α → Bool) (l : List α) : List α :=
  (l.foldl (fun sortedPrefix x => insertLeft less x sortedPrefix) []).reverse

/-- A stand-in for `strings.Title` on ASCII words separated by spaces, for
evaluating `PropertyValues` on concrete inputs: the first letter of every
word becomes a capital letter. -/
def titleChars : Bool → List Char → List Char
  | _, [] => []
  | up, c :: rest =>
    if c = ' ' then c :: titleChars true rest
    else (if up then c.toUpper else c) :: titleChars false rest

/-- The stand-in for `strings.Title` on strings. -/
def exampleTitle (s : String) : String := String.mk (titleChars true s.toList)

/-- A map with the two keys `a` and `A`, which `strings.Title` both maps to
`A`: a checkbox property and a select property. -/
def collidingMap : PropertyMetaMap :=
  [("a", ⟨"checkbox", none⟩), ("A", ⟨"select", none⟩)]

/-- The map of three of the properties of the test `TestPropertyValues`. -/
def testMap : PropertyMetaMap :=
  [("my number", ⟨"number", some ⟨"number"⟩⟩), ("check", ⟨"checkbox", none⟩),
    ("my float", ⟨"number", some ⟨"number_with_commas"⟩⟩)]

end Gen

namespace Markdown

/-! ## Lemmas on Go maps as entry lists -/

theorem get?_nil {α : Type} (k : NodeKind) : NodeRendererFuncs.get? ([] : NodeRendererFuncs α) k = none := rfl

theorem get?_cons {α : Type} (a : NodeKind) (v : α) (m : NodeRendererFuncs α) (k : NodeKind) :
    NodeRendererFuncs.get? ((a, v) :: m) k = if a = k then some v else NodeRendererFuncs.get? m k := by
  by_cases h : a = k
  · simp [NodeRendererFuncs.get?, List.find?_cons, h]
  · simp [NodeRendererFuncs.get?, List.find?_cons, h]

theorem get?_eq_none_iff {α : Type} (m : NodeRendererFuncs α) (k : NodeKind) :
    NodeRendererFuncs.get? m k = none ↔ k ∉ m.map Prod.fst := by
  induction m with
  | nil => simp [get?_nil]
  | cons e m ih =>
    obtain ⟨a, v⟩ := e
    rw [get?_cons]
    by_cases h : a = k
    · simp [h]
    · have h2 : ¬ k = a := fun hh => h hh.symm
      simp [h, h2, ih]

theorem mem_of_get? {α : Type} (m : NodeRendererFuncs α) (k : NodeKind) (v : α)
    (h : NodeRendererFuncs.get? m k = some v) : (k, v) ∈ m := by
  induction m with
  | nil => simp [get?_nil] at h
  | cons e m ih =>
    obtain ⟨a, w⟩ := e
    rw [get?_cons] at h
    by_cases hk : a = k
    · rw [if_pos hk] at h
      cases h
      subst hk
      exact List.mem_cons_self _ _
    · rw [if_neg hk] at h
      exact List.mem_cons_of_mem _ (ih h)

theorem get?_of_mem {α : Type} (m : NodeRendererFuncs α) (k : NodeKind) (v : α)
    (hnd : (m.map Prod.fst).Nodup) (h : (k, v) ∈ m) : NodeRendererFuncs.get? m k = some v := by
  induction m with
  | nil => simp at h
  | cons e m ih =>
    obtain ⟨a, w⟩ := e
    rw [get?_cons]
    rw [List.map_cons, List.nodup_cons] at hnd
    rcases List.mem_cons.1 h with heq | hmem
    · cases heq
      simp
    · have hne : ¬ a = k := by
        intro hak
        apply hnd.1
        subst hak
        exact List.mem_map.2 ⟨(a, v), hmem, rfl⟩
      rw [if_neg hne]
      exact ih hnd.2 hmem

theorem get?_perm {α : Type} (m m2 : NodeRendererFuncs α) (k : NodeKind)
    (hnd : (m.map Prod.fst).Nodup) (hp : m2.Perm m) :
    NodeRendererFuncs.get? m2 k = NodeRendererFuncs.get? m k := by
  have hnd2 : (m2.map Prod.fst).Nodup := (hp.map Prod.fst).nodup_iff.2 hnd
  cases h : NodeRendererFuncs.get? m k with
  | none =>
    rw [get?_eq_none_iff] at h ⊢
    intro hk
    exact h ((hp.map Prod.fst).mem_iff.1 hk)
  | some v =>
    exact get?_of_mem m2 k v hnd2 (hp.mem_iff.2 (mem_of_get? m k v h))

theorem keys_set {α : Type} (m : NodeRendererFuncs α) (k : NodeKind) (f : α) :
    (m.set k f).map Prod.fst =
      if k ∈ m.map Prod.fst then m.map Prod.fst else m.map Prod.fst ++ [k] := by
  unfold NodeRendererFuncs.set
  have hany : (m.any (fun e => e.1 == k)) = true ↔ k ∈ m.map Prod.fst := by
    simp only [List.any_eq_true, beq_iff_eq, List.mem_map]
  by_cases h : k ∈ m.map Prod.fst
  · rw [if_pos (hany.2 h), if_pos h, List.map_map]
    apply List.map_congr_left
    intro e _
    by_cases hk : e.1 = k
    · simp [hk]
    · simp [hk]
  · have h2 : ¬ (m.any (fun e => e.1 == k)) = true := fun hh => h (hany.1 hh)
    rw [if_neg h2, if_neg h]
    simp

theorem nodup_keys_set {α : Type} (m : NodeRendererFuncs α) (k : NodeKind) (f : α)
    (hnd : (m.map Prod.fst).Nodup) : ((m.set k f).map Prod.fst).Nodup := by
  rw [keys_set]
  by_cases h : k ∈ m.map Prod.fst
  · rw [if_pos h]; exact hnd
  · rw [if_neg h]
    exact List.Nodup.append hnd (List.nodup_singleton k) (by simpa using h)

theorem mem_keys_set {α : Type} (m : NodeRendererFuncs α) (k k2 : NodeKind) (f : α) :
    k2 ∈ (m.set k f).map Prod.fst ↔ k2 = k ∨ k2 ∈ m.map Prod.fst := by
  rw [keys_set]
  by_cases h : k ∈ m.map Prod.fst
  · rw [if_pos h]
    constructor
    · exact Or.inr
    · rintro (rfl | h2)
      · exact h
      · exact h2
  · rw [if_neg h]
    simp only [List.mem_append, List.mem_singleton]
    tauto

theorem get?_map_replace {α : Type} (m : NodeRendererFuncs α) (k k2 : NodeKind) (f : α) :
    NodeRendererFuncs.get? (m.map (fun e => if e.1 == k then (k, f) else e)) k2 =
      if k2 = k then (if k ∈ m.map Prod.fst then some f else none)
      else NodeRendererFuncs.get? m k2 := by
  induction m with
  | nil => simp [get?_nil]
  | cons e m ih =>
    obtain ⟨a, v⟩ := e
    by_cases ha : a = k
    · subst ha
      simp only [List.map_cons, beq_self_eq_true, if_true, get?_cons, List.mem_cons, true_or]
      by_cases hk : k2 = a
      · subst hk; simp
      · have : ¬ a = k2 := fun h => hk h.symm
        simp only [this, if_false, hk]
        rw [ih, if_neg hk]
    · have hb : (a == k) = false := by simpa using ha
      have hstep : List.map (fun e => if (e.1 == k) = true then (k, f) else e) ((a, v) :: m) =
          (a, v) :: List.map (fun e => if (e.1 == k) = true then (k, f) else e) m := by
        simp [hb, ha]
      rw [hstep, get?_cons, get?_cons, ih]
      by_cases hk : k2 = k
      · subst hk
        have h1 : ¬ a = k2 := ha
        have h2 : ¬ k2 = a := fun h => ha h.symm
        have hmem : (k2 ∈ a :: List.map Prod.fst m) ↔ k2 ∈ List.map Prod.fst m := by
          rw [List.mem_cons]
          constructor
          · rintro (h | h)
            · exact absurd h h2
            · exact h
          · exact Or.inr
        rw [if_pos rfl, if_pos rfl, if_neg h1, List.map_cons]
        exact (if_congr hmem rfl rfl).symm
      · simp [hk]

theorem get?_append_single {α : Type} (m : NodeRendererFuncs α) (k k2 : NodeKind) (f : α)
    (hk : k ∉ m.map Prod.fst) :
    NodeRendererFuncs.get? (m ++ [(k, f)]) k2 = if k2 = k then some f
      else NodeRendererFuncs.get? m k2 := by
  induction m with
  | nil =>
    by_cases h : k2 = k
    · subst h; simp [get?_cons]
    · have : ¬ k = k2 := fun hh => h hh.symm
      simp [get?_cons, get?_nil, h, this]
  | cons e m ih =>
    obtain ⟨a, v⟩ := e
    rw [List.map_cons, List.mem_cons, not_or] at hk
    rw [List.cons_append, get?_cons, get?_cons, ih hk.2]
    by_cases h : k2 = k
    · subst h
      have : ¬ a = k2 := fun hh => hk.1 hh.symm
      simp [this]
    · simp [h]

theorem get?_set {α : Type} (m : NodeRendererFuncs α) (k k2 : NodeKind) (f : α) :
    (m.set k f).get? k2 = if k2 = k then some f else m.get? k2 := by
  have hany : (m.any (fun e => e.1 == k)) = true ↔ k ∈ m.map Prod.fst := by
    simp only [List.any_eq_true, beq_iff_eq, List.mem_map]
  unfold NodeRendererFuncs.set
  by_cases h : k ∈ m.map Prod.fst
  · rw [if_pos (hany.2 h), get?_map_replace, if_pos h]
  · have h2 : ¬ (m.any (fun e => e.1 == k)) = true := fun hh => h (hany.1 hh)
    rw [if_neg h2, get?_append_single m k k2 f h]

theorem get?_foldl_set {α β : Type} (g : β → α) (l : NodeRendererFuncs β)
    (m : NodeRendererFuncs α) (k : NodeKind) (hnd : (l.map Prod.fst).Nodup) :
    (l.foldl (fun t e => NodeRendererFuncs.set t e.1 (g e.2)) m).get? k =
      match l.get? k with
      | some v => some (g v)
      | none => m.get? k := by
  induction l generalizing m with
  | nil => simp [get?_nil]
  | cons e l ih =>
    obtain ⟨a, v⟩ := e
    rw [List.map_cons, List.nodup_cons] at hnd
    rw [List.foldl_cons, ih _ hnd.2, get?_cons, get?_set]
    by_cases h : a = k
    · subst h
      have hnone : NodeRendererFuncs.get? l a = none := (get?_eq_none_iff l a).2 hnd.1
      simp [hnone]
    · have h2 : ¬ k = a := fun hh => h hh.symm
      simp [h, h2]

theorem keys_foldl_set {α β : Type} (g : β → α) (l : NodeRendererFuncs β)
    (m : NodeRendererFuncs α) (hnd : (m.map Prod.fst).Nodup) :
    ((l.foldl (fun t e => NodeRendererFuncs.set t e.1 (g e.2)) m).map Prod.fst).Nodup ∧
      ∀ k, k ∈ (l.foldl (fun t e => NodeRendererFuncs.set t e.1 (g e.2)) m).map Prod.fst ↔
        k ∈ m.map Prod.fst ∨ k ∈ l.map Prod.fst := by
  induction l generalizing m with
  | nil => simp [hnd]
  | cons e l ih =>
    obtain ⟨a, v⟩ := e
    rw [List.foldl_cons]
    obtain ⟨h1, h2⟩ := ih (NodeRendererFuncs.set m a (g v)) (nodup_keys_set m a (g v) hnd)
    refine ⟨h1, fun k => ?_⟩
    rw [h2 k, mem_keys_set, List.map_cons, List.mem_cons]
    tauto


/-! ## Front matter -/

/-- C2 (counterexample): an empty Go map that is not a `yamlV2.MapSlice`
reaches the `default` branch of the type switch, so `renderFrontMatter`
writes the start fence, the encoding of the empty mapping and the end fence:
twelve bytes, not zero. -/
theorem renderFrontMatter_empty_map_not_silent :
    renderFrontMatter exampleEnv
        (MetaData.value (FrontMatter.other "map[string]string" (Value.map []))) =
      ([45, 45, 45, 10, 123, 125, 10, 45, 45, 45, 10, 10], none) ∧
    (renderFrontMatter exampleEnv
        (MetaData.value (FrontMatter.other "map[string]string" (Value.map [])))).1 ≠ [] := by
  decide

/-- C2 (amended): for the nil value, for an empty `yamlV2.MapSlice` and for a
`parser.Context` that holds no items, `renderFrontMatter` writes zero bytes
and returns no error, whatever the encoders do. -/
theorem renderFrontMatter_absent_or_empty (env : Env) :
    renderFrontMatter env (MetaData.value FrontMatter.nil) = ([], none) ∧
    renderFrontMatter env (MetaData.value (FrontMatter.mapSlice [])) = ([], none) ∧
    renderFrontMatter env (MetaData.context []) = ([], none) := by
  refine ⟨rfl, rfl, rfl⟩

/-- C3: for every non-empty mapping (a `yamlV2.MapSlice`, directly or from a
`parser.Context`) and every value of another type, if the encoder succeeds
with output `enc` on that very value (items in stored order), then
`renderFrontMatter` writes exactly `---\n`, then `enc`, then `---\n\n`, and
returns no error. -/
theorem renderFrontMatter_fenced (env : Env) (fm : MetaData) (enc : Bytes)
    (h : (∃ m, resolveContext fm = FrontMatter.mapSlice m ∧ m ≠ [] ∧
            env.encodeV2 m = (enc, none)) ∨
         (∃ t v, resolveContext fm = FrontMatter.other t v ∧ env.encodeV3 v = (enc, none))) :
    renderFrontMatter env fm =
      ([45, 45, 45, 10] ++ enc ++ [45, 45, 45, 10, 10], none) := by
  unfold renderFrontMatter
  rcases h with ⟨m, hm, hne, henc⟩ | ⟨t, v, hv, henc⟩
  · rw [hm]
    have hlen : ¬ m.length = 0 := fun h0 => hne (List.length_eq_zero.1 h0)
    simp only [hlen, if_false, henc]
    rfl
  · rw [hv]
    simp only [henc]
    rfl

/-- C3 (witness): the mapping with the two items `b: 2`, `a: 1`, in that order. -/
theorem renderFrontMatter_fenced_witness :
    renderFrontMatter exampleEnv
        (MetaData.value (FrontMatter.mapSlice
          [(Value.str "b", Value.int 2), (Value.str "a", Value.int 1)])) =
      ([45, 45, 45, 10] ++ [98, 58, 32, 50, 10, 97, 58, 32, 49, 10] ++
        [45, 45, 45, 10, 10], none) :=
  renderFrontMatter_fenced exampleEnv _ [98, 58, 32, 50, 10, 97, 58, 32, 49, 10]
    (Or.inl ⟨[(Value.str "b", Value.int 2), (Value.str "a", Value.int 1)], rfl,
      by simp, by decide⟩)

/-! ## The rendering table -/

/-- C4: for every override map and every order in which the two `range`
loops of `RegisterFuncs` visit their maps, `RegisterFuncs` calls `Register`
exactly once for each kind that is a default kind or an override key and for
no other kind; the function it registers for a kind is the override when the
override map has that kind and the default method otherwise; and the table
the registerer ends with is the same for every visiting order. -/
theorem RegisterFuncs_registers (r : NodeRenderer)
    (rangeOverrides : NodeRendererFuncs NodeRendererFunc → NodeRendererFuncs NodeRendererFunc)
    (rangeFuncs : NodeRendererFuncs FuncValue → NodeRendererFuncs FuncValue)
    (hmap : (r.renderFuncsOverrides.map Prod.fst).Nodup)
    (h₁ : (rangeOverrides r.renderFuncsOverrides).Perm r.renderFuncsOverrides)
    (h₂ : ∀ m, (rangeFuncs m).Perm m) :
    ((r.RegisterFuncs rangeOverrides rangeFuncs).map Prod.fst).Nodup ∧
    (∀ kind, kind ∈ (r.RegisterFuncs rangeOverrides rangeFuncs).map Prod.fst ↔
      kind ∈ defaultFuncs.map Prod.fst ∨ kind ∈ r.renderFuncsOverrides.map Prod.fst) ∧
    (∀ kind f, (kind, f) ∈ r.RegisterFuncs rangeOverrides rangeFuncs ↔
      specTable r.renderFuncsOverrides kind = some f) ∧
    (∀ kind, (registerAll (r.RegisterFuncs rangeOverrides rangeFuncs)).get? kind =
      specTable r.renderFuncsOverrides kind) := by
  have hnd₁ : ((rangeOverrides r.renderFuncsOverrides).map Prod.fst).Nodup :=
    (h₁.map Prod.fst).nodup_iff.2 hmap
  have hdef : (defaultFuncs.map Prod.fst).Nodup := by decide
  obtain ⟨hk1, hk2⟩ := keys_foldl_set FuncValue.func (rangeOverrides r.renderFuncsOverrides)
    defaultFuncs hdef
  have hget : ∀ kind, NodeRendererFuncs.get? ((rangeOverrides r.renderFuncsOverrides).foldl
      (fun t e => NodeRendererFuncs.set t e.1 (FuncValue.func e.2)) defaultFuncs) kind =
      specTable r.renderFuncsOverrides kind := by
    intro kind
    rw [get?_foldl_set FuncValue.func _ _ _ hnd₁, get?_perm _ _ kind hmap h₁]
    unfold specTable
    cases r.renderFuncsOverrides.get? kind <;> rfl
  have hcalls : (r.RegisterFuncs rangeOverrides rangeFuncs).Perm
      ((rangeOverrides r.renderFuncsOverrides).foldl
        (fun t e => NodeRendererFuncs.set t e.1 (FuncValue.func e.2)) defaultFuncs) := h₂ _
  have hnd : ((r.RegisterFuncs rangeOverrides rangeFuncs).map Prod.fst).Nodup :=
    (hcalls.map Prod.fst).nodup_iff.2 hk1
  refine ⟨hnd, ?_, ?_, ?_⟩
  · intro kind
    rw [(hcalls.map Prod.fst).mem_iff, hk2, (h₁.map Prod.fst).mem_iff]
  · intro kind f
    rw [← hget kind, hcalls.mem_iff]
    constructor
    · intro h; exact get?_of_mem _ _ _ hk1 h
    · intro h; exact mem_of_get? _ _ _ h
  · intro kind
    unfold registerAll
    have h3 := get?_foldl_set (fun (x : FuncValue) => x)
      (r.RegisterFuncs rangeOverrides rangeFuncs) [] kind hnd
    have h4 : (fun (t : NodeRendererFuncs FuncValue) (e : NodeKind × FuncValue) =>
        NodeRendererFuncs.set t e.1 e.2) =
        (fun t e => NodeRendererFuncs.set t e.1 ((fun (x : FuncValue) => x) e.2)) := rfl
    rw [h4, h3, get?_perm _ _ kind hk1 hcalls, hget kind, get?_nil]
    cases specTable r.renderFuncsOverrides kind <;> rfl

/-- C4 (witness): an override for `Emphasis` and one for `Document`, with both
maps visited in reverse order. -/
theorem RegisterFuncs_registers_witness :
    (registerAll (NodeRenderer.RegisterFuncs
        ⟨⟨false, false⟩,
          [(NodeKind.Emphasis, fun _ _ _ => Result.ret [1] WalkStatus.WalkContinue),
           (NodeKind.Document, fun _ _ _ => Result.ret [2] WalkStatus.WalkContinue)]⟩
        List.reverse List.reverse)).get? NodeKind.Heading =
      specTable
        [(NodeKind.Emphasis, fun _ _ _ => Result.ret [1] WalkStatus.WalkContinue),
         (NodeKind.Document, fun _ _ _ => Result.ret [2] WalkStatus.WalkContinue)]
        NodeKind.Heading :=
  (RegisterFuncs_registers
    ⟨⟨false, false⟩,
      [(NodeKind.Emphasis, fun _ _ _ => Result.ret [1] WalkStatus.WalkContinue),
       (NodeKind.Document, fun _ _ _ => Result.ret [2] WalkStatus.WalkContinue)]⟩
    List.reverse List.reverse (by decide) (List.reverse_perm _)
    (fun m => List.reverse_perm m)).2.2.2 NodeKind.Heading

/-! ## Emphasis -/


/-- C5 (the code at the failing input): for two adjacent bold siblings in a
paragraph, each wrapping one text, in text mode, both calls on both nodes
write `**`, because the sibling check looks at the only child of the sibling
(a text), not at the sibling; the whole document renders as `**a****b**`
and a line terminator, with `****` between the two runs. -/
theorem renderEmphasis_adjacent_bold_not_merged :
    (NodeRenderer.renderEmphasis exampleEnv ⟨⟨false, false⟩, []⟩ [97, 98] firstBold true).out
      = [42, 42] ∧
    (NodeRenderer.renderEmphasis exampleEnv ⟨⟨false, false⟩, []⟩ [97, 98] firstBold false).out
      = [42, 42] ∧
    (NodeRenderer.renderEmphasis exampleEnv ⟨⟨false, false⟩, []⟩ [97, 98] secondBold true).out
      = [42, 42] ∧
    (NodeRenderer.renderEmphasis exampleEnv ⟨⟨false, false⟩, []⟩ [97, 98] secondBold false).out
      = [42, 42] ∧
    Render exampleEnv ⟨false, false⟩ (MetaData.value FrontMatter.nil) [97, 98]
        (Loc.root boldPair) [] =
      Except.ok [42, 42, 97, 42, 42, 42, 42, 98, 42, 42, 10] := by
  decide

/-- C6 (the code at the failing input): for a paragraph that holds an italic
node wrapping a single bold node over `a`, followed by a bold node over `b`,
in text mode, the second bold node writes nothing on the entering call and
`**` on the leaving call: the check suppresses it on one event only.  The
whole document renders as `*a*b**` and a line terminator, with a closing
`**` that no opening `**` precedes. -/
theorem renderEmphasis_decision_differs :
    NodeRenderer.renderEmphasis exampleEnv ⟨⟨false, false⟩, []⟩ [97, 98] boldAfterNested true =
      Result.ret [] WalkStatus.WalkContinue ∧
    NodeRenderer.renderEmphasis exampleEnv ⟨⟨false, false⟩, []⟩ [97, 98] boldAfterNested false =
      Result.ret [42, 42] WalkStatus.WalkContinue ∧
    emphasisSuppressed boldAfterNested 2 true ≠ emphasisSuppressed boldAfterNested 2 false ∧
    Render exampleEnv ⟨false, false⟩ (MetaData.value FrontMatter.nil) [97, 98]
        (Loc.root nestedThenBold) [] =
      Except.ok [42, 97, 42, 98, 42, 42, 10] := by
  decide

/-- C7: for every Emphasis node of level 1, 2 or 3 and either event,
`renderEmphasis` returns an error if and only if terminal mode is off, the
check for a same-level sibling or ancestor does not suppress the call, and
the level is 3; then it has written no bytes and the error wraps
`errInvalidEmphLevel` (with the level).  It never panics, and in terminal
mode it never fails. -/
theorem renderEmphasis_error_iff (env : Env) (r : NodeRenderer) (source : Bytes)
    (ctx : List Crumb) (cs : List Node) (level : Int) (entering : Bool)
    (hlevel : level = 1 ∨ level = 2 ∨ level = 3) :
    ((r.renderEmphasis env source ⟨Node.mk (.emphasis level) cs, ctx⟩ entering).err ≠ none ↔
      (r.Config.Terminal = false ∧
        emphasisSuppressed ⟨Node.mk (.emphasis level) cs, ctx⟩ level entering = false ∧
        level = 3)) ∧
    ((r.renderEmphasis env source ⟨Node.mk (.emphasis level) cs, ctx⟩ entering).err ≠ none →
      r.renderEmphasis env source ⟨Node.mk (.emphasis level) cs, ctx⟩ entering =
          ⟨[], WalkStatus.WalkStop,
            some (Failure.error (Error.withLevel errInvalidEmphLevel 3))⟩ ∧
        Error.is errInvalidEmphLevel (Error.withLevel errInvalidEmphLevel 3) = true) ∧
    (r.Config.Terminal = true →
      (r.renderEmphasis env source ⟨Node.mk (.emphasis level) cs, ctx⟩ entering).err = none) := by
  unfold NodeRenderer.renderEmphasis
  simp only [Node.data]
  cases hs : emphasisSuppressed ⟨Node.mk (.emphasis level) cs, ctx⟩ level entering <;>
  cases ht : r.Config.Terminal <;>
  cases entering <;>
  rcases hlevel with h | h | h <;>
  subst h <;>
  simp [Result.ret, Result.fail, levelItalics, levelBold, levelUnderlined, Error.is,
    errInvalidEmphLevel]

/-- C7 (witness): an underline node in text mode fails on the entering call. -/
theorem renderEmphasis_error_iff_witness :
    ((3 : Int) = 1 ∨ (3 : Int) = 2 ∨ (3 : Int) = 3) ∧
    NodeRenderer.renderEmphasis exampleEnv ⟨⟨false, false⟩, []⟩ [97] underlined true =
      ⟨[], WalkStatus.WalkStop, some (Failure.error (Error.withLevel errInvalidEmphLevel 3))⟩ :=
  ⟨by decide,
    ((renderEmphasis_error_iff exampleEnv ⟨⟨false, false⟩, []⟩ [97]
      [⟨NodeData.paragraph, [], []⟩, ⟨NodeData.document, [], []⟩] [textAt 0] 3 true
      (by decide)).2.1 (by decide)).1⟩

/-- C8 (counterexample): a bold node inside a link that follows a bold node
has no same-level adjacent sibling and no same-level ancestor, yet in text
mode it writes nothing on the entering and on the leaving call; the whole
document renders as `**a**[bc](u)` and a line terminator.  Likewise a bold
node whose previous sibling is an italic node wrapping a single bold node
has no same-level adjacent sibling or ancestor and writes nothing on the
entering call. -/
theorem renderEmphasis_suppressed_in_link :
    noSameLevelSiblingOrAncestor boldAfterNested 2 = true ∧
    (NodeRenderer.renderEmphasis exampleEnv ⟨⟨false, false⟩, []⟩ [97, 98] boldAfterNested
      true).out = [] ∧
    noSameLevelSiblingOrAncestor boldInLink 2 = true ∧
    NodeRenderer.renderEmphasis exampleEnv ⟨⟨false, false⟩, []⟩ [97, 98, 99] boldInLink true =
      Result.ret [] WalkStatus.WalkContinue ∧
    NodeRenderer.renderEmphasis exampleEnv ⟨⟨false, false⟩, []⟩ [97, 98, 99] boldInLink false =
      Result.ret [] WalkStatus.WalkContinue ∧
    Render exampleEnv ⟨false, false⟩ (MetaData.value FrontMatter.nil) [97, 98, 99]
        (Loc.root boldThenLink) [] =
      Except.ok [42, 42, 97, 42, 42, 91, 98, 99, 93, 40, 117, 41, 10] := by
  decide

/-- The function `ancestorHas` is monotone in its criterion. -/
theorem ancestorHasAux_mono (c1 c2 : Loc → Bool) (h : ∀ l, c1 l = true → c2 l = true) :
    ∀ (ctx : List Crumb) (node : Node),
      ancestorHasAux c1 node ctx = true → ancestorHasAux c2 node ctx = true := by
  intro ctx
  induction ctx with
  | nil => intro node hn; exact absurd hn (by simp [ancestorHasAux])
  | cons c cs ih =>
    intro node hn
    simp only [ancestorHasAux, Bool.or_eq_true] at hn ⊢
    rcases hn with hn | hn
    · exact Or.inl (h _ hn)
    · exact Or.inr (ih _ hn)

/-- A node with no Emphasis of its level near it (`noSameLevelNearby`) has no
same-level adjacent sibling or ancestor (`noSameLevelSiblingOrAncestor`). -/
theorem noSameLevelNearby_narrows (n : Loc) (level : Int)
    (h : noSameLevelNearby n level = true) : noSameLevelSiblingOrAncestor n level = true := by
  have hself : ∀ (o : Option Loc) (c : Loc → Bool),
      selfOrOnlyChildHas o c = false → nodeHas o c = false := by
    intro o c ho
    cases o with
    | none => rfl
    | some m =>
      unfold selfOrOnlyChildHas at ho
      simp only [Bool.or_eq_false_iff] at ho
      exact ho.1
  unfold noSameLevelNearby at h
  simp only [Bool.and_eq_true, Bool.not_eq_true'] at h
  obtain ⟨⟨hprev, hnext⟩, hanc⟩ := h
  have hanc2 : ancestorHas n (sameEmphasis level) = false := by
    cases hc : ancestorHas n (sameEmphasis level) with
    | false => rfl
    | true =>
      have := ancestorHasAux_mono (sameEmphasis level) (emphasisAncestorCriterion level)
        (fun l hl => by simp [emphasisAncestorCriterion, hl]) n.ctx n.node hc
      unfold ancestorHas at hanc
      rw [this] at hanc
      cases hanc
  unfold noSameLevelSiblingOrAncestor
  rw [hself _ _ hprev, hself _ _ hnext, hanc2]
  rfl

/-- C8 (amended): for every Emphasis node such that neither adjacent sibling
of the node is an Emphasis of the same level or has one as its only child,
and no ancestor of the node is one or has an adjacent sibling that is one or
has one as its only child: in text mode, `renderEmphasis` writes exactly `*`
when the level is 1 and exactly `**` when the level is 2, on the entering
and on the leaving call alike, and returns continue and no error. -/
theorem renderEmphasis_text_delimiters (env : Env) (r : NodeRenderer) (source : Bytes)
    (ctx : List Crumb) (cs : List Node) (level : Int) (entering : Bool)
    (hterm : r.Config.Terminal = false)
    (hnear : noSameLevelNearby ⟨Node.mk (.emphasis level) cs, ctx⟩ level = true) :
    (level = 1 →
      r.renderEmphasis env source ⟨Node.mk (.emphasis level) cs, ctx⟩ entering =
        ⟨[42], WalkStatus.WalkContinue, none⟩) ∧
    (level = 2 →
      r.renderEmphasis env source ⟨Node.mk (.emphasis level) cs, ctx⟩ entering =
        ⟨[42, 42], WalkStatus.WalkContinue, none⟩) := by
  have honly : ∀ (o : Option Loc) (c : Loc → Bool),
      selfOrOnlyChildHas o c = false → onlyChildHas o c = false := by
    intro o c h
    cases o with
    | none => rfl
    | some m =>
      unfold selfOrOnlyChildHas at h
      simp only [Bool.or_eq_false_iff] at h
      exact h.2
  unfold noSameLevelNearby at hnear
  simp only [Bool.and_eq_true, Bool.not_eq_true'] at hnear
  obtain ⟨⟨hprev, hnext⟩, hanc⟩ := hnear
  have hsup : emphasisSuppressed ⟨Node.mk (.emphasis level) cs, ctx⟩ level entering = false := by
    unfold emphasisSuppressed
    rw [honly _ _ hprev, honly _ _ hnext, hanc]
    simp
  unfold NodeRenderer.renderEmphasis
  simp only [Node.data, hsup, hterm]
  constructor
  · intro h
    subst h
    simp [Result.ret, levelItalics, bAsterisk]
  · intro h
    subst h
    simp [Result.ret, levelItalics, levelBold, twoAsterisks]

/-- C8 (witness): a bold node that is the only child of a paragraph, on the
leaving call. -/
theorem renderEmphasis_text_delimiters_witness :
    noSameLevelNearby loneBold 2 = true ∧
    NodeRenderer.renderEmphasis exampleEnv ⟨⟨false, false⟩, []⟩ [97] loneBold false =
      ⟨[42, 42], WalkStatus.WalkContinue, none⟩ :=
  ⟨by decide,
    (renderEmphasis_text_delimiters exampleEnv ⟨⟨false, false⟩, []⟩ [97]
      [⟨NodeData.paragraph, [], []⟩, ⟨NodeData.document, [], []⟩]
      [textAt 0] 2 false rfl (by decide)).2 rfl⟩

/-! ## Code spans -/

/-- C9 (the code at the failing input): for a code span with the two text
children `a` and a grave accent, the entering call of `renderCodeSpan`
writes one grave accent before the content (then the two literals, and
returns skip-children), although a child literal contains a grave accent:
only the first child is inspected. -/
theorem renderCodeSpan_inspects_first_child_only :
    NodeRenderer.renderCodeSpan ⟨⟨false, false⟩, []⟩ [97, 96] codeSpanTwoTexts true =
      Result.ret [96, 97, 96] WalkStatus.WalkSkipChildren ∧
    codeSpanTwoTexts.node.children.map (literalOf [97, 96]) = [some [97], some [96]] ∧
    containsByte [96] bGraveAccent = true := by
  decide

/-! ## `Render` -/

/-- C1 (the code at the failing input): for the front matter `a: 1` and a
document without children, `Render` succeeds and returns the fenced front
matter followed by one more line terminator: the output ends with three
line terminators, so the byte before the last one is a line terminator. -/
theorem Render_front_matter_only_ends_blank :
    Render exampleEnv ⟨false, false⟩
        (MetaData.value (FrontMatter.mapSlice [(Value.str "a", Value.int 1)])) []
        (Loc.root (Node.mk NodeData.document [])) [] =
      Except.ok [45, 45, 45, 10, 97, 58, 32, 49, 10, 45, 45, 45, 10, 10, 10] := by
  decide

/-- C10 (counterexample): when the front-matter encoder fails, `Render`
returns the error of `renderFrontMatter` with no label of its own; when the
traversal fails on an underline node, `Render` wraps that error with the
label `rendering markdown`.  Neither error carries the label
`rendering document`. -/
theorem Render_error_not_labelled_document :
    Render failingEnv ⟨false, false⟩
        (MetaData.value (FrontMatter.mapSlice [(Value.str "a", Value.int 1)])) []
        (Loc.root (Node.mk NodeData.document [])) [] =
      Except.error (Failure.error
        (Error.encoding "yaml.MapSlice" (Error.new "yaml: unsupported value"))) ∧
    Render exampleEnv ⟨false, false⟩ (MetaData.value FrontMatter.nil) [97]
        (Loc.root (Node.mk NodeData.document [Node.mk NodeData.paragraph [emph 3 [textAt 0]]]))
        [] =
      Except.error (Failure.error
        (Error.wrap (Error.withLevel errInvalidEmphLevel 3) "rendering markdown")) ∧
    (∀ cause, Render failingEnv ⟨false, false⟩
        (MetaData.value (FrontMatter.mapSlice [(Value.str "a", Value.int 1)])) []
        (Loc.root (Node.mk NodeData.document [])) [] ≠
      Except.error (Failure.error (Error.wrap cause "rendering document"))) := by
  refine ⟨by decide, by decide, ?_⟩
  intro cause h
  have h2 : Render failingEnv ⟨false, false⟩
        (MetaData.value (FrontMatter.mapSlice [(Value.str "a", Value.int 1)])) []
        (Loc.root (Node.mk NodeData.document [])) [] =
      Except.error (Failure.error
        (Error.encoding "yaml.MapSlice" (Error.new "yaml: unsupported value"))) := by decide
  rw [h2] at h
  cases h

/-- An error of `renderFrontMatter` is the error of the encoder, wrapped as
`encoding <type>`. -/
theorem renderFrontMatter_error (env : Env) (fm : MetaData) (e : Error)
    (h : (renderFrontMatter env fm).2 = some e) :
    ∃ typeName cause, e = Error.encoding typeName cause := by
  unfold renderFrontMatter at h
  cases hfm : resolveContext fm with
  | nil => rw [hfm] at h; simp at h
  | mapSlice m =>
    rw [hfm] at h
    by_cases hlen : m.length = 0
    · simp [hlen] at h
    · simp only [hlen, if_false] at h
      rcases henc : env.encodeV2 m with ⟨enc, _ | cause⟩
      · rw [henc] at h; simp at h
      · rw [henc] at h
        simp only [Option.some.injEq] at h
        exact ⟨_, _, h.symm⟩
  | other t v =>
    rw [hfm] at h
    simp only at h
    rcases henc : env.encodeV3 v with ⟨enc, _ | cause⟩
    · rw [henc] at h; simp at h
    · rw [henc] at h
      simp only [Option.some.injEq] at h
      exact ⟨_, _, h.symm⟩

/-- C10 (amended): whenever `Render` returns an error, either the front
matter failed and the error is the one `renderFrontMatter` built (the
encoder's error wrapped as `encoding <type>`, with no label added by
`Render`), or the front matter succeeded and the error is the error of the
tree traversal wrapped with the label `rendering markdown`. -/
theorem Render_error_shape (env : Env) (cfg : Config) (metaData : MetaData) (src : Bytes)
    (doc : Loc) (overrides : NodeRendererFuncs NodeRendererFunc) (e : Error)
    (h : Render env cfg metaData src doc overrides = Except.error (Failure.error e)) :
    ((renderFrontMatter env metaData).2 = some e ∧
        ∃ typeName cause, e = Error.encoding typeName cause) ∨
    ((renderFrontMatter env metaData).2 = none ∧
        ∃ cause, (rendererRender env (NewNodeRenderer cfg overrides) src doc).err =
            some (Failure.error cause) ∧
          e = Error.wrap cause "rendering markdown") := by
  unfold Render at h
  rcases hfm : renderFrontMatter env metaData with ⟨b, _ | e1⟩
  · rw [hfm] at h
    right
    refine ⟨rfl, ?_⟩
    simp only at h
    rcases hb : (rendererRender env (NewNodeRenderer cfg overrides) src doc).err with
      _ | ⟨cause⟩ | ⟨msg⟩
    · rw [hb] at h; simp at h
    · rw [hb] at h
      simp only [Except.error.injEq, Failure.error.injEq] at h
      exact ⟨cause, rfl, h.symm⟩
    · rw [hb] at h; simp at h
  · rw [hfm] at h
    simp only [Except.error.injEq, Failure.error.injEq] at h
    subst h
    left
    refine ⟨rfl, ?_⟩
    exact renderFrontMatter_error env metaData e1 (by rw [hfm])

/-- C10 (witness): an underline node in text mode makes the traversal fail. -/
theorem Render_error_shape_witness :
    Render exampleEnv ⟨false, false⟩ (MetaData.value FrontMatter.nil) [97]
        (Loc.root (Node.mk NodeData.document [Node.mk NodeData.paragraph [emph 3 [textAt 0]]]))
        [] =
      Except.error (Failure.error
        (Error.wrap (Error.withLevel errInvalidEmphLevel 3) "rendering markdown")) ∧
    (((renderFrontMatter exampleEnv (MetaData.value FrontMatter.nil)).2 =
          some (Error.wrap (Error.withLevel errInvalidEmphLevel 3) "rendering markdown") ∧
        ∃ typeName cause, Error.wrap (Error.withLevel errInvalidEmphLevel 3)
          "rendering markdown" = Error.encoding typeName cause) ∨
      ((renderFrontMatter exampleEnv (MetaData.value FrontMatter.nil)).2 = none ∧
        ∃ cause, (rendererRender exampleEnv (NewNodeRenderer ⟨false, false⟩ []) [97]
            (Loc.root (Node.mk NodeData.document
              [Node.mk NodeData.paragraph [emph 3 [textAt 0]]]))).err =
            some (Failure.error cause) ∧
          Error.wrap (Error.withLevel errInvalidEmphLevel 3) "rendering markdown" =
            Error.wrap cause "rendering markdown")) :=
  ⟨by decide,
    Render_error_shape exampleEnv ⟨false, false⟩ (MetaData.value FrontMatter.nil) [97]
      (Loc.root (Node.mk NodeData.document [Node.mk NodeData.paragraph [emph 3 [textAt 0]]]))
      [] _ (by decide)⟩

/-- The trim writer never forwards a cut-set byte last. -/
theorem TrimWriter_Write_getLast (cutset : Bytes) (p : Bytes) (t : TrimWriter)
    (ht : ∀ b, t.forwarded.getLast? = some b → cutset.contains b = false) :
    ∀ b, (TrimWriter.Write cutset t p).forwarded.getLast? = some b →
      cutset.contains b = false := by
  induction p generalizing t with
  | nil => exact ht
  | cons x rest ih =>
    unfold TrimWriter.Write
    rw [List.foldl_cons]
    apply ih
    intro b hb
    unfold TrimWriter.WriteByte at hb
    by_cases hx : cutset.contains x = true
    · rw [if_pos hx] at hb
      exact ht b hb
    · rw [if_neg hx] at hb
      rw [List.getLast?_append] at hb
      simp only [List.getLast?_singleton, Option.or_some, Option.some.injEq] at hb
      subst hb
      simpa using hx

/-- The stream that passes the top-level trim writer does not end with a
line terminator. -/
theorem trimWriter_getLast (stream : Bytes) :
    (trimWriter sNewLine stream).getLast? ≠ some 10 := by
  intro h
  have := TrimWriter_Write_getLast sNewLine stream ⟨[], []⟩ (by simp) 10 h
  simp [sNewLine] at this

/-- What `renderFrontMatter` writes when it succeeds is empty or ends with
the end fence. -/
theorem renderFrontMatter_ok_ending (env : Env) (fm : MetaData) (b : Bytes)
    (h : renderFrontMatter env fm = (b, none)) :
    b = [] ∨ ∃ pre, b = pre ++ endYAMLFrontmatter := by
  unfold renderFrontMatter at h
  cases hfm : resolveContext fm with
  | nil =>
    rw [hfm] at h
    simp only [Prod.mk.injEq] at h
    exact Or.inl h.1.symm
  | mapSlice m =>
    rw [hfm] at h
    simp only at h
    by_cases hlen : m.length = 0
    · simp only [hlen, if_true, Prod.mk.injEq] at h
      exact Or.inl h.1.symm
    · simp only [hlen, if_false] at h
      rcases henc : env.encodeV2 m with ⟨enc, _ | cause⟩
      · rw [henc] at h
        simp only [Prod.mk.injEq] at h
        exact Or.inr ⟨_, h.1.symm⟩
      · rw [henc] at h
        simp at h
  | other t v =>
    rw [hfm] at h
    simp only at h
    rcases henc : env.encodeV3 v with ⟨enc, _ | cause⟩
    · rw [henc] at h
      simp only [Prod.mk.injEq] at h
      exact Or.inr ⟨_, h.1.symm⟩
    · rw [henc] at h
      simp at h

/-- The ending of every successful `Render`: the output is the front matter,
the trimmed body and one line terminator; the byte before that terminator is
a line terminator exactly when front matter was written and the trimmed body
is empty. -/
theorem Render_ok_ending (env : Env) (cfg : Config) (metaData : MetaData) (src : Bytes)
    (doc : Loc) (overrides : NodeRendererFuncs NodeRendererFunc) (out : Bytes)
    (h : Render env cfg metaData src doc overrides = Except.ok out) :
    ∃ body, out = body ++ [10] ∧
      (body.getLast? = some 10 ↔
        ((renderFrontMatter env metaData).1 ≠ [] ∧
          trimWriter sNewLine
            (rendererRender env (NewNodeRenderer cfg overrides) src doc).out = [])) := by
  unfold Render at h
  rcases hfm : renderFrontMatter env metaData with ⟨b, _ | e1⟩
  · rw [hfm] at h
    simp only at h
    rcases hb : (rendererRender env (NewNodeRenderer cfg overrides) src doc).err with
      _ | ⟨cause⟩ | ⟨msg⟩
    · rw [hb] at h
      simp only [Except.ok.injEq] at h
      refine ⟨b ++ trimWriter sNewLine
        (rendererRender env (NewNodeRenderer cfg overrides) src doc).out, ?_, ?_⟩
      · rw [← h]; rfl
      · generalize htr : trimWriter sNewLine
          (rendererRender env (NewNodeRenderer cfg overrides) src doc).out = tr
        have hlast : tr.getLast? ≠ some 10 := by
          rw [← htr]; exact trimWriter_getLast _
        constructor
        · intro hl
          cases tr with
          | nil =>
            refine ⟨?_, rfl⟩
            intro hbe
            simp only at hbe
            rw [hbe] at hl
            simp at hl
          | cons x xs =>
            exfalso
            apply hlast
            rw [List.getLast?_append] at hl
            cases hx : (x :: xs).getLast? with
            | none => simp at hx
            | some y =>
              rw [hx] at hl
              simpa using hl
        · rintro ⟨hne, htr0⟩
          subst htr0
          rw [List.append_nil]
          rcases renderFrontMatter_ok_ending env metaData b hfm with h0 | ⟨pre, hpre⟩
          · exact absurd h0 hne
          · rw [hpre]
            simp [endYAMLFrontmatter, List.getLast?_append]
    · rw [hb] at h; simp at h
    · rw [hb] at h; simp at h
  · rw [hfm] at h
    simp at h

end Markdown

namespace Markdown

/-! ## Text, strings, links, headings -/

/-- C11: for every Text node whose segment lies inside the source (the call
`Segment.Value(source)` returns `value`: the padding and the bytes
`source[start:stop]`), `renderText` on the entering call writes `value`
followed by: nothing if the node is raw; otherwise two line terminators if
it has a soft line break and hard-wrap mode is on, one if it has a soft line
break and hard-wrap mode is off, two if it has a hard line break and no soft
break, and nothing if it has no break; it returns continue and no error.
For a segment outside the source the entering call panics without writing.
On the leaving call it writes nothing, whatever the segment. -/
theorem renderText_breaks (r : NodeRenderer) (source : Bytes) (ctx : List Crumb)
    (cs : List Node) (seg : Segment) (raw soft hard : Bool) :
    (∀ value, seg.Value source = some value →
      value = List.replicate seg.padding.toNat 32 ++
          (source.drop seg.start.toNat).take (seg.stop - seg.start).toNat ∧
      r.renderText source ⟨Node.mk (.text seg raw soft hard) cs, ctx⟩ true =
        ⟨value ++
          (if raw then []
           else if soft then (if r.Config.HardWraps then [10, 10] else [10])
           else if hard then [10, 10]
           else []),
          WalkStatus.WalkContinue, none⟩) ∧
    (seg.Value source = none →
      r.renderText source ⟨Node.mk (.text seg raw soft hard) cs, ctx⟩ true =
        ⟨[], WalkStatus.WalkStop, some (Failure.panic sliceBoundsPanic)⟩) ∧
    (seg.Value source = none ↔ ¬ (0 ≤ seg.start ∧ seg.start ≤ seg.stop ∧
      seg.stop ≤ source.length ∧ 0 ≤ seg.padding)) ∧
    r.renderText source ⟨Node.mk (.text seg raw soft hard) cs, ctx⟩ false =
      ⟨[], WalkStatus.WalkContinue, none⟩ := by
  refine ⟨?_, ?_, ?_, ?_⟩
  · intro value hv
    constructor
    · unfold Segment.Value at hv
      split at hv
      · exact (Option.some.inj hv).symm
      · exact absurd hv (by simp)
    · unfold NodeRenderer.renderText
      simp only [Node.data, hv]
      cases raw <;> cases soft <;> cases hard <;> cases hw : r.Config.HardWraps <;>
        simp [Result.ret, twoNewLines, bNewLine]
  · intro hv
    unfold NodeRenderer.renderText
    simp [Node.data, hv, Result.panic]
  · unfold Segment.Value Segment.inside
    by_cases h : 0 ≤ seg.start ∧ seg.start ≤ seg.stop ∧ seg.stop ≤ source.length ∧
        0 ≤ seg.padding
    · simp [h]
    · simp [h]
  · simp [NodeRenderer.renderText, Result.ret]

/-- C11 (witness): the text over the first source byte of `ab` with a soft
line break, hard-wrap mode off: `a` and one line terminator. -/
theorem renderText_breaks_witness :
    Segment.Value ⟨0, 1, 0⟩ [97, 98] = some [97] ∧
    NodeRenderer.renderText ⟨⟨false, false⟩, []⟩ [97, 98]
        ⟨Node.mk (.text ⟨0, 1, 0⟩ false true false) [], [⟨NodeData.paragraph, [], []⟩]⟩ true =
      ⟨[97, 10], WalkStatus.WalkContinue, none⟩ :=
  ⟨by decide,
    ((renderText_breaks ⟨⟨false, false⟩, []⟩ [97, 98] [⟨NodeData.paragraph, [], []⟩] []
      ⟨0, 1, 0⟩ false true false).1 [97] (by decide)).2⟩

/-- C18 (counterexample): a string node `a` whose next sibling is a list
writes `a` on the entering call and a line terminator on the leaving call:
two bytes for a literal of one byte. -/
theorem renderString_adds_newline_before_list :
    (NodeRenderer.renderString ⟨⟨false, false⟩, []⟩ [] stringBeforeList true).out = [97] ∧
    (NodeRenderer.renderString ⟨⟨false, false⟩, []⟩ [] stringBeforeList false).out = [10] ∧
    (NodeRenderer.renderString ⟨⟨false, false⟩, []⟩ [] stringBeforeList true).out ++
      (NodeRenderer.renderString ⟨⟨false, false⟩, []⟩ [] stringBeforeList false).out ≠ [97] := by
  decide

/-- C18 (amended): for every String node in every tree position, the bytes
`renderString` writes over its entering and leaving calls together are the
literal value of the node, followed by one line terminator exactly when the
next sibling of the node is a List; both calls return continue and no error. -/
theorem renderString_value (r : NodeRenderer) (source : Bytes) (ctx : List Crumb)
    (cs : List Node) (value : Bytes) :
    r.renderString source ⟨Node.mk (.string value) cs, ctx⟩ true =
      ⟨value, WalkStatus.WalkContinue, none⟩ ∧
    r.renderString source ⟨Node.mk (.string value) cs, ctx⟩ false =
      ⟨if (Loc.NextSibling ⟨Node.mk (.string value) cs, ctx⟩).map Loc.Kind = some NodeKind.List
        then [10] else [],
        WalkStatus.WalkContinue, none⟩ := by
  unfold NodeRenderer.renderString
  constructor
  · simp [Node.data, Result.ret]
  · cases h : Loc.NextSibling ⟨Node.mk (.string value) cs, ctx⟩ with
    | none => simp [Result.ret]
    | some s =>
      by_cases hk : s.Kind = NodeKind.List
      · simp [hk, Result.ret]
      · simp [hk, Result.ret]

/-- C16: for every Link node with destination `d` and title `t`,
`renderLink` writes exactly `[` on the entering call, and on the leaving
call exactly `](`, then `d`, then a space and `t` in double quotes if and
only if `t` is not empty, then `)`; both calls return continue and no error. -/
theorem renderLink_brackets (r : NodeRenderer) (source : Bytes) (ctx : List Crumb)
    (cs : List Node) (d t : Bytes) :
    r.renderLink source ⟨Node.mk (.link d t) cs, ctx⟩ true =
      ⟨[91], WalkStatus.WalkContinue, none⟩ ∧
    r.renderLink source ⟨Node.mk (.link d t) cs, ctx⟩ false =
      ⟨[93, 40] ++ d ++ (if t = [] then [] else [32, 34] ++ t ++ [34]) ++ [41],
        WalkStatus.WalkContinue, none⟩ := by
  unfold NodeRenderer.renderLink
  constructor
  · simp [Result.ret, bLeftSquareBracket]
  · cases t with
    | nil => simp [Node.data, Result.ret, titlePart, linkTransition, bRightParenthesis]
    | cons x xs =>
      simp [Node.data, Result.ret, titlePart, linkTransition, bRightParenthesis,
        linkTitleStart, bQuotationMark]

end Markdown

namespace Markdown

/-! ## Blocks -/

/-- C12: for every node, `renderListItem` on the leaving call writes exactly
one line terminator if the node has a next sibling and its last child is
absent or is not a Blockquote, and writes nothing if it has no next sibling
or its last child is a Blockquote; it returns no error. -/
theorem renderListItem_leaving (env : Env) (r : NodeRenderer) (kids : Bytes × Option Failure)
    (source : Bytes) (n : Loc) :
    (n.NextSibling = none →
      r.renderListItem env kids source n false = ⟨[], WalkStatus.WalkSkipChildren, none⟩) ∧
    (∀ c, n.LastChild = some c → c.Kind = NodeKind.Blockquote →
      r.renderListItem env kids source n false = ⟨[], WalkStatus.WalkSkipChildren, none⟩) ∧
    (n.NextSibling ≠ none → n.LastChild = none →
      r.renderListItem env kids source n false = ⟨[10], WalkStatus.WalkSkipChildren, none⟩) ∧
    (n.NextSibling ≠ none → ∀ c, n.LastChild = some c → c.Kind ≠ NodeKind.Blockquote →
      r.renderListItem env kids source n false = ⟨[10], WalkStatus.WalkSkipChildren, none⟩) := by
  unfold NodeRenderer.renderListItem
  refine ⟨?_, ?_, ?_, ?_⟩
  · intro h
    simp [h, Result.ret]
  · intro c hc hk
    simp [hc, hk, Result.ret]
  · intro h hl
    have hs : n.NextSibling.isSome = true := by
      cases hn : n.NextSibling with
      | none => exact absurd hn h
      | some x => rfl
    simp [hs, hl, Result.ret, bNewLine]
  · intro h c hc hk
    have hs : n.NextSibling.isSome = true := by
      cases hn : n.NextSibling with
      | none => exact absurd hn h
      | some x => rfl
    simp [hs, hc, hk, Result.ret, bNewLine]

/-- C12 (witness): the first of two list items, whose last child is a
paragraph, writes one line terminator on the leaving call. -/
theorem renderListItem_leaving_witness :
    firstItem.NextSibling ≠ none ∧
    (∀ c, firstItem.LastChild = some c → c.Kind ≠ NodeKind.Blockquote) ∧
    NodeRenderer.renderListItem exampleEnv ⟨⟨false, false⟩, []⟩ ([], none) [97, 98] firstItem
      false = ⟨[10], WalkStatus.WalkSkipChildren, none⟩ :=
  ⟨Option.isSome_iff_ne_none.1 (by decide), by intro c hc; cases hc; decide,
    (renderListItem_leaving exampleEnv ⟨⟨false, false⟩, []⟩ ([], none) [97, 98] firstItem).2.2.2
      (Option.isSome_iff_ne_none.1 (by decide)) _ rfl (by decide)⟩

/-- C13: for every node with list indent `i` whose children render without
error to the stream `kids.1`: on entering, if `i > 0` and the node has a
previous sibling, `renderParagraph` writes one line terminator, the children
through the indent writer of width `i`, and one more line terminator, and
otherwise it writes only the children, directly; on leaving it writes two
line terminators if `i = 0`, one if `i > 0` and a next sibling exists, and
nothing if `i > 0` and there is no next sibling. -/
theorem renderParagraph_layout (env : Env) (r : NodeRenderer) (kids : Bytes × Option Failure)
    (source : Bytes) (n : Loc) :
    (env.getIndentOfListItem n > 0 → n.PreviousSibling ≠ none → kids.2 = none →
      r.renderParagraph env kids source n true =
        ⟨[10] ++ env.indentWriter (env.getIndentOfListItem n) kids.1 ++ [10],
          WalkStatus.WalkSkipChildren, none⟩) ∧
    (¬ (env.getIndentOfListItem n > 0 ∧ n.PreviousSibling ≠ none) → kids.2 = none →
      r.renderParagraph env kids source n true =
        ⟨kids.1, WalkStatus.WalkSkipChildren, none⟩) ∧
    (env.getIndentOfListItem n = 0 →
      r.renderParagraph env kids source n false = ⟨[10, 10], WalkStatus.WalkContinue, none⟩) ∧
    (env.getIndentOfListItem n > 0 → n.NextSibling ≠ none →
      r.renderParagraph env kids source n false = ⟨[10], WalkStatus.WalkContinue, none⟩) ∧
    (env.getIndentOfListItem n > 0 → n.NextSibling = none →
      r.renderParagraph env kids source n false = ⟨[], WalkStatus.WalkContinue, none⟩) := by
  have isSome_of_ne : ∀ (o : Option Loc), o ≠ none → o.isSome = true := by
    intro o h
    cases o with
    | none => exact absurd rfl h
    | some x => rfl
  unfold NodeRenderer.renderParagraph
  refine ⟨?_, ?_, ?_, ?_, ?_⟩
  · intro hi hp hk
    simp [hi, isSome_of_ne _ hp, hk, Result.ret, bNewLine]
  · intro hnot hk
    by_cases hi : env.getIndentOfListItem n > 0
    · have hp : n.PreviousSibling = none := by
        by_contra hp
        exact hnot ⟨hi, hp⟩
      simp [hi, hp, hk, Result.ret]
    · simp [hi, hk, Result.ret]
  · intro h0
    simp [h0, Result.ret, twoNewLines]
  · intro hi hn
    simp [hi, isSome_of_ne _ hn, Result.ret, bNewLine]
  · intro hi hn
    simp [hi, hn, Result.ret]

/-- C13 (witness): the second paragraph of a list item, with the children
stream `b`: a line terminator, `b` through the indent writer, a line
terminator. -/
theorem renderParagraph_layout_witness :
    exampleEnv.getIndentOfListItem secondParagraph > 0 ∧
    secondParagraph.PreviousSibling ≠ none ∧
    NodeRenderer.renderParagraph exampleEnv ⟨⟨false, false⟩, []⟩ ([98], none) [97, 98]
      secondParagraph true = ⟨[10, 98, 10], WalkStatus.WalkSkipChildren, none⟩ :=
  ⟨by decide, Option.isSome_iff_ne_none.1 (by decide),
    (renderParagraph_layout exampleEnv ⟨⟨false, false⟩, []⟩ ([98], none) [97, 98]
      secondParagraph).1 (by decide) (Option.isSome_iff_ne_none.1 (by decide)) rfl⟩

/-- C14 (counterexample): the leaving call of `renderBlockquote` writes two
line terminators. -/
theorem renderBlockquote_leaving_writes :
    NodeRenderer.renderBlockquote exampleEnv ⟨⟨false, false⟩, []⟩ ([97], none) [97]
      quoteInDocument false = ⟨[10, 10], WalkStatus.WalkContinue, none⟩ ∧
    (NodeRenderer.renderBlockquote exampleEnv ⟨⟨false, false⟩, []⟩ ([97], none) [97]
      quoteInDocument false).out ≠ [] := by
  decide

/-- C14 (amended): for every node with list indent `i` whose children render
without error to the stream `kids.1`, the entering call of
`renderBlockquote` writes one leading line terminator exactly when `i > 0`,
then the children through the quote writer inside the indent writer of width
`i`, and returns skip-children; the leaving call writes exactly two line
terminators and returns continue. -/
theorem renderBlockquote_layout (env : Env) (r : NodeRenderer) (kids : Bytes × Option Failure)
    (source : Bytes) (n : Loc) :
    (kids.2 = none →
      r.renderBlockquote env kids source n true =
        ⟨(if env.getIndentOfListItem n > 0 then [10] else []) ++
            env.indentWriter (env.getIndentOfListItem n) (env.blockquoteWriter kids.1),
          WalkStatus.WalkSkipChildren, none⟩) ∧
    r.renderBlockquote env kids source n false = ⟨[10, 10], WalkStatus.WalkContinue, none⟩ := by
  unfold NodeRenderer.renderBlockquote
  constructor
  · intro hk
    simp [hk, Result.ret, bNewLine]
  · simp [Result.ret, twoNewLines]

/-- C14 (witness): a block quote in a document, with the children stream `a`. -/
theorem renderBlockquote_layout_witness :
    NodeRenderer.renderBlockquote exampleEnv ⟨⟨false, false⟩, []⟩ ([97], none) [97]
      quoteInDocument true = ⟨[62, 32, 97], WalkStatus.WalkSkipChildren, none⟩ :=
  (renderBlockquote_layout exampleEnv ⟨⟨false, false⟩, []⟩ ([97], none) [97]
    quoteInDocument).1 rfl

/-- C15: for every node whose list indent is 0, on the entering and on the
leaving call, `renderCodeBlock` writes the same bytes and returns the same
status and error as `renderFencedCodeBlock` with the same arguments; on the
leaving call these are the closing fence and two line terminators. -/
theorem renderCodeBlock_delegates (env : Env) (r : NodeRenderer) (source : Bytes) (n : Loc)
    (h : env.getIndentOfListItem n = 0) :
    (∀ entering, r.renderCodeBlock env source n entering =
      r.renderFencedCodeBlock env source n entering) ∧
    r.renderCodeBlock env source n false =
      ⟨[96, 96, 96, 10, 10], WalkStatus.WalkContinue, none⟩ := by
  unfold NodeRenderer.renderCodeBlock
  simp only [h, if_true]
  refine ⟨fun _ => trivial, ?_⟩
  simp [NodeRenderer.renderFencedCodeBlock, Result.ret, codeBlockFence, twoNewLines]

/-- C15 (witness): an indented code block directly in a document. -/
theorem renderCodeBlock_delegates_witness :
    exampleEnv.getIndentOfListItem codeBlockInDocument = 0 ∧
    NodeRenderer.renderCodeBlock exampleEnv ⟨⟨false, false⟩, []⟩ [120, 10] codeBlockInDocument
      true =
      NodeRenderer.renderFencedCodeBlock exampleEnv ⟨⟨false, false⟩, []⟩ [120, 10]
        codeBlockInDocument true :=
  ⟨by decide,
    (renderCodeBlock_delegates exampleEnv ⟨⟨false, false⟩, []⟩ [120, 10] codeBlockInDocument
      (by decide)).1 true⟩

end Markdown

namespace Markdown

/-- C17: for every Heading node of level `n`, `renderHeading` writes exactly
`n` times `#` and one space on the entering call and exactly two line
terminators on the leaving call; so, when the table holds `renderHeading`
for headings and the walk of the children writes `t` and continues, the walk
of the heading writes `n` times `#`, a space, `t` and two line terminators. -/
theorem renderHeading_walk (env : Env) (r : NodeRenderer) (source : Bytes) (ctx : List Crumb)
    (cs : List Node) (n : Nat) :
    r.renderHeading source ⟨Node.mk (.heading n) cs, ctx⟩ true =
      ⟨List.replicate n 35 ++ [32], WalkStatus.WalkContinue, none⟩ ∧
    r.renderHeading source ⟨Node.mk (.heading n) cs, ctx⟩ false =
      ⟨[10, 10], WalkStatus.WalkContinue, none⟩ ∧
    (r.table.get? NodeKind.Heading = some (FuncValue.method Method.renderHeading) →
      ∀ t, walkChildren (walkNodes env r source (.heading n) ctx [] cs) =
          ⟨t, WalkStatus.WalkContinue, none⟩ →
        walkNode env r source ctx (Node.mk (.heading n) cs) =
          ⟨List.replicate n 35 ++ [32] ++ t ++ [10, 10], WalkStatus.WalkContinue, none⟩) := by
  have h1 : r.renderHeading source ⟨Node.mk (.heading n) cs, ctx⟩ true =
      ⟨List.replicate n 35 ++ [32], WalkStatus.WalkContinue, none⟩ := by
    simp [NodeRenderer.renderHeading, Node.data, Result.ret, repeatByte, bHash, bSpace]
  have h2 : r.renderHeading source ⟨Node.mk (.heading n) cs, ctx⟩ false =
      ⟨[10, 10], WalkStatus.WalkContinue, none⟩ := by
    simp [NodeRenderer.renderHeading, Result.ret, twoNewLines]
  refine ⟨h1, h2, ?_⟩
  intro htab t ht
  rw [walkNode]
  have hw : ∀ entering,
      r.walker env (renderChildren (walkNodes env r source (.heading n) ctx [] cs)) source
        ⟨Node.mk (.heading n) cs, ctx⟩ entering =
      r.renderHeading source ⟨Node.mk (.heading n) cs, ctx⟩ entering := by
    intro entering
    unfold NodeRenderer.walker
    have hk : Loc.Kind ⟨Node.mk (.heading n) cs, ctx⟩ = NodeKind.Heading := rfl
    rw [hk, htab]
    rfl
  unfold walkStep
  simp only [hw, h1, h2, ht]
  simp

/-- C17 (witness): the heading of level 2 with the text `Title` walks to
`## Title` and two line terminators. -/
theorem renderHeading_walk_witness :
    NodeRendererFuncs.get? (NodeRenderer.table ⟨⟨false, false⟩, []⟩) NodeKind.Heading =
      some (FuncValue.method Method.renderHeading) ∧
    walkNode exampleEnv ⟨⟨false, false⟩, []⟩ [84, 105, 116, 108, 101]
        [⟨NodeData.document, [], []⟩] headingTitle =
      ⟨[35, 35, 32, 84, 105, 116, 108, 101, 10, 10], WalkStatus.WalkContinue, none⟩ :=
  ⟨rfl,
    (renderHeading_walk exampleEnv ⟨⟨false, false⟩, []⟩ [84, 105, 116, 108, 101]
      [⟨NodeData.document, [], []⟩] [Node.mk (.text ⟨0, 5, 0⟩ false false false) []] 2).2.2
      rfl [84, 105, 116, 108, 101] (by decide)⟩

end Markdown

namespace Writers

open Markdown (Byte Bytes)

/-- C19: for every sink `w`: if `w` has all three methods, `Upgrade(w)` is
`w` itself; in every case `Upgrade(Upgrade(w))` is `Upgrade(w)` and bulk
writes are the `Write` of `w`; `WriteByte` and `WriteString` are the methods
of `w` when `w` has them, and otherwise `WriteByte(c)` is one `w.Write` of
the one-byte slice `[c]`, returning its error, and `WriteString(s)` is one
`w.Write` of the bytes of `s`, returning its count and error. -/
theorem Upgrade_forwards {σ ε : Type} (w : Sink σ ε) :
    (∀ bw sw, w.WriteByte = some bw → w.WriteString = some sw →
      Upgrade w = ⟨w.Write, bw, sw⟩ ∧ (Upgrade w).toSink = w) ∧
    Upgrade (Upgrade w).toSink = Upgrade w ∧
    (Upgrade w).Write = w.Write ∧
    (∀ bw, w.WriteByte = some bw → (Upgrade w).WriteByte = bw) ∧
    (w.WriteByte = none → ∀ c s,
      (Upgrade w).WriteByte c s = ((w.Write [c] s).1.2, (w.Write [c] s).2)) ∧
    (∀ sw, w.WriteString = some sw → (Upgrade w).WriteString = sw) ∧
    (w.WriteString = none → ∀ str s, (Upgrade w).WriteString str s = w.Write str s) := by
  obtain ⟨wr, wb, ws⟩ := w
  cases wb <;> cases ws <;>
    simp [Upgrade, Sink.asWriter, Writer.toSink, byteWriter.WriteByte, stringWriter.WriteString]

/-- C19 (witness): a sink with `Write` and `WriteString` only: `WriteByte(65)`
on its upgrade is exactly one call `Write([65])`, and `WriteString` is the
sink's own method. -/
theorem Upgrade_forwards_witness :
    stringSink.WriteByte = none ∧
    (Upgrade stringSink).WriteByte 65 [] = (none, [Call.write [65]]) ∧
    (Upgrade stringSink).WriteString [104, 105] [] = ((2, none), [Call.writeString [104, 105]]) :=
  ⟨rfl,
    ((Upgrade_forwards stringSink).2.2.2.2.1 rfl 65 []).trans rfl,
    (congrFun (congrFun ((Upgrade_forwards stringSink).2.2.2.2.2.1 _ rfl) [104, 105]) []).trans
      rfl⟩

end Writers

namespace Gen

/-- C20: for every property, `GoType` returns `notion.RichTexts` for the
types title and rich_text, `notion.SelectValue` for select, `bool` for
checkbox, `notion.PropertyOptions` for multi_select, `notion.References`
for relation, `int` for a number property whose configuration has the plain
number format and `float32` for one with any other format, and for every
other type `notion.` followed by the Pascal-case form of the type name. -/
theorem GoType_table (toPascal : String → String) (p : property) :
    (p.meta.type = "title" ∨ p.meta.type = "rich_text" →
      p.GoType toPascal = some "notion.RichTexts") ∧
    (p.meta.type = "select" → p.GoType toPascal = some "notion.SelectValue") ∧
    (p.meta.type = "checkbox" → p.GoType toPascal = some "bool") ∧
    (p.meta.type = "multi_select" → p.GoType toPascal = some "notion.PropertyOptions") ∧
    (p.meta.type = "relation" → p.GoType toPascal = some "notion.References") ∧
    (p.meta.type = "number" → ∀ num, p.meta.Number = some num →
      (num.Format = "number" → p.GoType toPascal = some "int") ∧
      (num.Format ≠ "number" → p.GoType toPascal = some "float32")) ∧
    (p.meta.type ≠ "title" → p.meta.type ≠ "rich_text" → p.meta.type ≠ "select" →
      p.meta.type ≠ "checkbox" → p.meta.type ≠ "multi_select" → p.meta.type ≠ "number" →
      p.meta.type ≠ "relation" →
      p.GoType toPascal = some ("notion." ++ toPascal p.meta.type)) := by
  unfold property.GoType PropertyTypeTitle PropertyTypeRichText PropertyTypeSelect
    PropertyTypeCheckbox PropertyTypeMultiSelect PropertyTypeNumber PropertyTypeRelation
    NumberConfigFormatNumber
  refine ⟨?_, ?_, ?_, ?_, ?_, ?_, ?_⟩
  · intro h
    rw [if_pos h]
  · intro h
    rw [h]
    simp
  · intro h
    rw [h]
    simp
  · intro h
    rw [h]
    simp
  · intro h
    rw [h]
    simp
  · intro h num hn
    rw [h, hn]
    constructor
    · intro hf
      simp [hf]
    · intro hf
      simp [hf]
  · intro h1 h2 h3 h4 h5 h6 h7
    simp [h1, h2, h3, h4, h5, h6, h7]

/-- C20 (witness): with the example Pascal-case function, a date property
gives `notion.Date`, a files property `notion.Files`, and a number property
with the format `number_with_commas` gives `float32`. -/
theorem GoType_table_witness :
    property.GoType examplePascal ⟨"My Date", ⟨"date", none⟩⟩ = some "notion.Date" ∧
    property.GoType examplePascal ⟨"My Files", ⟨"files", none⟩⟩ = some "notion.Files" ∧
    property.GoType examplePascal ⟨"My Float", ⟨"number", some ⟨"number_with_commas"⟩⟩⟩ =
      some "float32" :=
  ⟨((GoType_table examplePascal ⟨"My Date", ⟨"date", none⟩⟩).2.2.2.2.2.2
      (by decide) (by decide) (by decide) (by decide) (by decide) (by decide)
      (by decide)).trans (by decide),
    ((GoType_table examplePascal ⟨"My Files", ⟨"files", none⟩⟩).2.2.2.2.2.2
      (by decide) (by decide) (by decide) (by decide) (by decide) (by decide)
      (by decide)).trans (by decide),
    ((GoType_table examplePascal ⟨"My Float", ⟨"number", some ⟨"number_with_commas"⟩⟩⟩).2.2.2.2.2.1
      rfl _ rfl).2 (by decide)⟩

end Gen

namespace Markdown

/-! ## Code span delimiters and skip-children -/

/-- When reading the literal of no child panics, the loop of `renderCodeSpan`
writes the literal of every child and ends normally. -/
theorem codeSpanLoop_of_readable (source : Bytes) (cs : List Node)
    (h : ∀ c ∈ cs, literalPanics source c = false) :
    codeSpanLoop source cs = (codeSpanContent source cs, false) := by
  induction cs with
  | nil => rfl
  | cons c rest ih =>
    have hc : literalPanics source c = false := h c (List.mem_cons_self c rest)
    have hrest := ih (fun x hx => h x (List.mem_cons_of_mem c hx))
    simp [codeSpanLoop, codeSpanContent, hc, hrest]

/-- C23 (counterexample): for the code span over the source bytes of a grave
accent and `a`, the entering call writes two grave accents and the content,
the leaving call two grave accents; in the rendered span the run of grave
accents at the start has length 3 and the run at the end has length 2: the
whole document renders as three grave accents, `a`, two grave accents and a
line terminator. -/
theorem renderCodeSpan_runs_differ :
    NodeRenderer.renderCodeSpan ⟨⟨false, false⟩, []⟩ [96, 97] codeSpanOneText true =
      Result.ret [96, 96, 96, 97] WalkStatus.WalkSkipChildren ∧
    NodeRenderer.renderCodeSpan ⟨⟨false, false⟩, []⟩ [96, 97] codeSpanOneText false =
      Result.ret [96, 96] WalkStatus.WalkContinue ∧
    (walkNode exampleEnv ⟨⟨false, false⟩, []⟩ [96, 97] codeSpanOneText.ctx
      codeSpanOneText.node).out = [96, 96, 96, 97, 96, 96] ∧
    graveAccentRun [96, 96, 96, 97, 96, 96] = 3 ∧
    graveAccentRun (List.reverse [96, 96, 96, 97, 96, 96]) = 2 ∧
    Render exampleEnv ⟨false, false⟩ (MetaData.value FrontMatter.nil) [96, 97]
        (Loc.root (codeSpanDocument 0 2)) [] =
      Except.ok [96, 96, 96, 97, 96, 96, 10] := by
  decide

/-- C23 (amended): for every CodeSpan node whose text children have their
segments inside the source, the number `k` of grave accents that
`renderCodeSpan` writes on the leaving call equals the number it writes
before the content on the entering call: `k` is two when the first child is
a literal that contains a grave accent and one otherwise; the entering call
then writes the literal of every child and returns skip-children, the
leaving call writes nothing more and returns continue. -/
theorem renderCodeSpan_delimiters (r : NodeRenderer) (source : Bytes) (node : Loc)
    (hread : ∀ c ∈ node.node.children, literalPanics source c = false) :
    ∃ k : Nat,
      (k = 2 ↔ ∃ c rest lit, node.node.children = c :: rest ∧
        literalOf source c = some lit ∧ containsByte lit 96 = true) ∧
      (k = 1 ∨ k = 2) ∧
      r.renderCodeSpan source node true =
        ⟨List.replicate k 96 ++ codeSpanContent source node.node.children,
          WalkStatus.WalkSkipChildren, none⟩ ∧
      r.renderCodeSpan source node false =
        ⟨List.replicate k 96, WalkStatus.WalkContinue, none⟩ := by
  have hloop := codeSpanLoop_of_readable source node.node.children hread
  unfold NodeRenderer.renderCodeSpan codeSpanEscape
  rw [hloop]
  cases hc : node.node.children with
  | nil =>
    refine ⟨1, ?_, Or.inl rfl, ?_, ?_⟩
    · simp
    · simp [Result.ret, bGraveAccent, codeSpanContent]
    · simp [Result.ret, bGraveAccent]
  | cons c rest =>
    have hp : literalPanics source c = false := by
      apply hread
      rw [hc]
      exact List.mem_cons_self c rest
    cases hl : literalOf source c with
    | none =>
      refine ⟨1, ?_, Or.inl rfl, ?_, ?_⟩
      · simp [hl]
      · simp [Result.ret, bGraveAccent, hl, hp]
      · simp [Result.ret, bGraveAccent, hl, hp]
    | some lit =>
      by_cases hb : containsByte lit 96 = true
      · refine ⟨2, ?_, Or.inr rfl, ?_, ?_⟩
        · simp only [true_iff]
          exact ⟨c, rest, lit, rfl, hl, hb⟩
        · simp [Result.ret, hb, hl, hp, bGraveAccent, List.replicate]
        · simp [Result.ret, hb, hl, hp, bGraveAccent, List.replicate]
      · refine ⟨1, ?_, Or.inl rfl, ?_, ?_⟩
        · constructor
          · intro h; cases h
          · rintro ⟨c2, rest2, lit2, hcons, hl2, hb2⟩
            cases hcons
            rw [hl] at hl2
            cases hl2
            exact absurd hb2 hb
        · simp [Result.ret, hb, hl, hp, bGraveAccent]
        · simp [Result.ret, hb, hl, hp, bGraveAccent]

/-- C23 (witness): the code span with the two text children `a` and a grave
accent: one grave accent on the leaving call, one before the content on the
entering call. -/
theorem renderCodeSpan_delimiters_witness :
    (∀ c ∈ codeSpanTwoTexts.node.children, literalPanics [97, 96] c = false) ∧
    ∃ k : Nat,
      (k = 2 ↔ ∃ c rest lit, codeSpanTwoTexts.node.children = c :: rest ∧
        literalOf [97, 96] c = some lit ∧ containsByte lit 96 = true) ∧
      (k = 1 ∨ k = 2) ∧
      NodeRenderer.renderCodeSpan ⟨⟨false, false⟩, []⟩ [97, 96] codeSpanTwoTexts true =
        ⟨List.replicate k 96 ++ codeSpanContent [97, 96] codeSpanTwoTexts.node.children,
          WalkStatus.WalkSkipChildren, none⟩ ∧
      NodeRenderer.renderCodeSpan ⟨⟨false, false⟩, []⟩ [97, 96] codeSpanTwoTexts false =
        ⟨List.replicate k 96, WalkStatus.WalkContinue, none⟩ :=
  ⟨by decide,
    renderCodeSpan_delimiters ⟨⟨false, false⟩, []⟩ [97, 96] codeSpanTwoTexts (by decide)⟩

/-- When the walk of no child returns an error, `renderChildren` writes what
the walk of each child writes, once per child, in stored order. -/
theorem renderChildren_of_ok (walked : List Result) (h : ∀ w ∈ walked, w.err = none) :
    renderChildren walked = ((walked.map Result.out).flatten, none) := by
  induction walked with
  | nil => rfl
  | cons w rest ih =>
    have hw : w.err = none := h w (List.mem_cons_self w rest)
    have hrest := ih (fun x hx => h x (List.mem_cons_of_mem w hx))
    simp [renderChildren, hw, hrest]

/-- C24: `renderBlockquote`, `renderListItem` and `renderParagraph` return
skip-children from the entering call whenever that call returns no error.
So, for a block quote, a list item of a list, and a paragraph whose table
entry is the default method and whose children walk without error, the walk
of the node writes the stream of its children exactly once (what the walk of
each child writes, once per child, in stored order), through the writers of
the entering call and between the bytes that the entering and the leaving
call add: the traversal adds nothing for the children. -/
theorem entering_call_skips_children (env : Env) (r : NodeRenderer)
    (kids : Bytes × Option Failure) (source : Bytes) (n : Loc)
    (ctx : List Crumb) (cs : List Node) (ordered : Bool) (start : Int)
    (left right : List Node) :
    ((r.renderBlockquote env kids source n true).err = none →
      (r.renderBlockquote env kids source n true).status = WalkStatus.WalkSkipChildren) ∧
    ((r.renderListItem env kids source n true).err = none →
      (r.renderListItem env kids source n true).status = WalkStatus.WalkSkipChildren) ∧
    ((r.renderParagraph env kids source n true).err = none →
      (r.renderParagraph env kids source n true).status = WalkStatus.WalkSkipChildren) ∧
    (r.table.get? NodeKind.Blockquote = some (FuncValue.method Method.renderBlockquote) →
      (∀ w ∈ walkNodes env r source .blockquote ctx [] cs, w.err = none) →
      walkNode env r source ctx (Node.mk .blockquote cs) =
        ⟨(if env.getIndentOfListItem ⟨Node.mk .blockquote cs, ctx⟩ > 0 then [10] else []) ++
            env.indentWriter (env.getIndentOfListItem ⟨Node.mk .blockquote cs, ctx⟩)
              (env.blockquoteWriter (childrenStream env r source .blockquote ctx cs)) ++
            [10, 10],
          WalkStatus.WalkContinue, none⟩) ∧
    (r.table.get? NodeKind.ListItem = some (FuncValue.method Method.renderListItem) →
      (∀ w ∈ walkNodes env r source .listItem (⟨.list ordered start, left, right⟩ :: ctx) [] cs,
        w.err = none) →
      ∃ tail : Bytes, (tail = [] ∨ tail = [10]) ∧
        walkNode env r source (⟨.list ordered start, left, right⟩ :: ctx) (Node.mk .listItem cs) =
          ⟨env.indentWriter
              (env.getIndentOfListItem
                ⟨Node.mk .listItem cs, ⟨.list ordered start, left, right⟩ :: ctx⟩)
              ((if ordered then
                  sprintfOListItem (env.numElement
                    ⟨Node.mk .listItem cs, ⟨.list ordered start, left, right⟩ :: ctx⟩)
                else preUListItem) ++
                childrenStream env r source .listItem
                  (⟨.list ordered start, left, right⟩ :: ctx) cs) ++
              tail,
            WalkStatus.WalkContinue, none⟩) ∧
    (r.table.get? NodeKind.Paragraph = some (FuncValue.method Method.renderParagraph) →
      (∀ w ∈ walkNodes env r source .paragraph ctx [] cs, w.err = none) →
      ∃ tail : Bytes, (tail = [] ∨ tail = [10] ∨ tail = [10, 10]) ∧
        walkNode env r source ctx (Node.mk .paragraph cs) =
          ⟨(if env.getIndentOfListItem ⟨Node.mk .paragraph cs, ctx⟩ > 0 ∧
                (Loc.PreviousSibling ⟨Node.mk .paragraph cs, ctx⟩).isSome = true then
              [10] ++ env.indentWriter (env.getIndentOfListItem ⟨Node.mk .paragraph cs, ctx⟩)
                (childrenStream env r source .paragraph ctx cs) ++ [10]
            else childrenStream env r source .paragraph ctx cs) ++ tail,
            WalkStatus.WalkContinue, none⟩) := by
  refine ⟨?_, ?_, ?_, ?_, ?_, ?_⟩
  · unfold NodeRenderer.renderBlockquote
    cases hk : kids.2 with
    | none => simp [Result.ret]
    | some e => simp
  · unfold NodeRenderer.renderListItem
    cases hp : (n.Parent.map (fun p => p.node.data) : Option NodeData) with
    | none => simp [Result.panic]
    | some d =>
      cases d <;> simp [Result.panic]
      cases hk : kids.2 with
      | none => simp [Result.ret]
      | some e => simp
  · unfold NodeRenderer.renderParagraph
    cases hk : kids.2 with
    | none =>
      by_cases hc : (decide (env.getIndentOfListItem n > 0) && n.PreviousSibling.isSome) = true
      · simp [hc, Result.ret]
      · simp [hc, Result.ret]
    | some e =>
      by_cases hc : (decide (env.getIndentOfListItem n > 0) && n.PreviousSibling.isSome) = true
      · simp [hc]
      · simp [hc]
  · intro htab hok
    have hrc := renderChildren_of_ok _ hok
    rw [walkNode]
    have hw : ∀ entering,
        r.walker env (renderChildren (walkNodes env r source .blockquote ctx [] cs)) source
          ⟨Node.mk .blockquote cs, ctx⟩ entering =
        r.renderBlockquote env (childrenStream env r source .blockquote ctx cs, none) source
          ⟨Node.mk .blockquote cs, ctx⟩ entering := by
      intro entering
      unfold NodeRenderer.walker
      have hk : Loc.Kind ⟨Node.mk .blockquote cs, ctx⟩ = NodeKind.Blockquote := rfl
      rw [hk, htab, hrc]
      rfl
    unfold walkStep
    simp only [hw]
    unfold NodeRenderer.renderBlockquote
    simp [Result.ret, bNewLine, twoNewLines]
  · intro htab hok
    have hrc := renderChildren_of_ok _ hok
    rw [walkNode]
    have hw : ∀ entering,
        r.walker env
          (renderChildren
            (walkNodes env r source .listItem (⟨.list ordered start, left, right⟩ :: ctx) [] cs))
          source ⟨Node.mk .listItem cs, ⟨.list ordered start, left, right⟩ :: ctx⟩ entering =
        r.renderListItem env
          (childrenStream env r source .listItem (⟨.list ordered start, left, right⟩ :: ctx) cs,
            none)
          source ⟨Node.mk .listItem cs, ⟨.list ordered start, left, right⟩ :: ctx⟩ entering := by
      intro entering
      unfold NodeRenderer.walker
      have hk : Loc.Kind ⟨Node.mk .listItem cs, ⟨.list ordered start, left, right⟩ :: ctx⟩ =
          NodeKind.ListItem := rfl
      rw [hk, htab, hrc]
      rfl
    have hent : r.renderListItem env
          (childrenStream env r source .listItem (⟨.list ordered start, left, right⟩ :: ctx) cs,
            none)
          source ⟨Node.mk .listItem cs, ⟨.list ordered start, left, right⟩ :: ctx⟩ true =
        ⟨env.indentWriter
            (env.getIndentOfListItem
              ⟨Node.mk .listItem cs, ⟨.list ordered start, left, right⟩ :: ctx⟩)
            ((if ordered then
                sprintfOListItem (env.numElement
                  ⟨Node.mk .listItem cs, ⟨.list ordered start, left, right⟩ :: ctx⟩)
              else preUListItem) ++
              childrenStream env r source .listItem
                (⟨.list ordered start, left, right⟩ :: ctx) cs),
          WalkStatus.WalkSkipChildren, none⟩ := by
      unfold NodeRenderer.renderListItem
      cases ordered <;> simp [Loc.Parent, Crumb.rebuild, Node.data, Result.ret]
    have hlv : ∃ tail : Bytes, (tail = [] ∨ tail = [10]) ∧
        r.renderListItem env
          (childrenStream env r source .listItem (⟨.list ordered start, left, right⟩ :: ctx) cs,
            none)
          source ⟨Node.mk .listItem cs, ⟨.list ordered start, left, right⟩ :: ctx⟩ false =
        ⟨tail, WalkStatus.WalkSkipChildren, none⟩ := by
      unfold NodeRenderer.renderListItem
      simp only [Bool.not_false, if_true]
      split
      · exact ⟨[10], Or.inr rfl, rfl⟩
      · exact ⟨[], Or.inl rfl, rfl⟩
    obtain ⟨tail, ht, hlv⟩ := hlv
    refine ⟨tail, ht, ?_⟩
    unfold walkStep
    simp only [hw, hent, hlv]
    simp [Result.ret]
  · intro htab hok
    have hrc := renderChildren_of_ok _ hok
    rw [walkNode]
    have hw : ∀ entering,
        r.walker env (renderChildren (walkNodes env r source .paragraph ctx [] cs)) source
          ⟨Node.mk .paragraph cs, ctx⟩ entering =
        r.renderParagraph env (childrenStream env r source .paragraph ctx cs, none) source
          ⟨Node.mk .paragraph cs, ctx⟩ entering := by
      intro entering
      unfold NodeRenderer.walker
      have hk : Loc.Kind ⟨Node.mk .paragraph cs, ctx⟩ = NodeKind.Paragraph := rfl
      rw [hk, htab, hrc]
      rfl
    unfold walkStep
    simp only [hw]
    unfold NodeRenderer.renderParagraph
    by_cases hi : env.getIndentOfListItem ⟨Node.mk .paragraph cs, ctx⟩ > 0
    · cases hp : (Loc.PreviousSibling ⟨Node.mk .paragraph cs, ctx⟩).isSome <;>
      cases hn : (Loc.NextSibling ⟨Node.mk .paragraph cs, ctx⟩).isSome
      · exact ⟨[], Or.inl rfl, by simp [hi, hp, hn, Result.ret, bNewLine, twoNewLines]⟩
      · exact ⟨[10], Or.inr (Or.inl rfl), by simp [hi, hp, hn, Result.ret, bNewLine, twoNewLines]⟩
      · exact ⟨[], Or.inl rfl, by simp [hi, hp, hn, Result.ret, bNewLine, twoNewLines]⟩
      · exact ⟨[10], Or.inr (Or.inl rfl), by simp [hi, hp, hn, Result.ret, bNewLine, twoNewLines]⟩
    · exact ⟨[10, 10], Or.inr (Or.inr rfl), by simp [hi, Result.ret, bNewLine, twoNewLines]⟩

/-- C24 (witness): the first of the two items of an unordered list in a
document, holding a paragraph with the text `a`: the walk of the item writes
the marker, the children stream `a` once, and the line terminator of the
leaving call. -/
theorem entering_call_skips_children_witness :
    NodeRendererFuncs.get? (NodeRenderer.table ⟨⟨false, false⟩, []⟩) NodeKind.ListItem =
      some (FuncValue.method Method.renderListItem) ∧
    (∀ w ∈ walkNodes exampleEnv ⟨⟨false, false⟩, []⟩ [97, 98] NodeData.listItem
        (⟨NodeData.list false 1, [], [Node.mk .listItem [Node.mk .paragraph [textAt 1]]]⟩ ::
          [⟨NodeData.document, [], []⟩]) [] [Node.mk .paragraph [textAt 0]], w.err = none) ∧
    childrenStream exampleEnv ⟨⟨false, false⟩, []⟩ [97, 98] NodeData.listItem
        (⟨NodeData.list false 1, [], [Node.mk .listItem [Node.mk .paragraph [textAt 1]]]⟩ ::
          [⟨NodeData.document, [], []⟩]) [Node.mk .paragraph [textAt 0]] = [97] ∧
    walkNode exampleEnv ⟨⟨false, false⟩, []⟩ [97, 98] firstItem.ctx firstItem.node =
      ⟨[45, 32, 97, 10], WalkStatus.WalkContinue, none⟩ ∧
    ∃ tail : Bytes, (tail = [] ∨ tail = [10]) ∧
      walkNode exampleEnv ⟨⟨false, false⟩, []⟩ [97, 98]
          (⟨NodeData.list false 1, [], [Node.mk .listItem [Node.mk .paragraph [textAt 1]]]⟩ ::
            [⟨NodeData.document, [], []⟩])
          (Node.mk .listItem [Node.mk .paragraph [textAt 0]]) =
        ⟨exampleEnv.indentWriter
            (exampleEnv.getIndentOfListItem
              ⟨Node.mk .listItem [Node.mk .paragraph [textAt 0]],
                ⟨NodeData.list false 1, [],
                    [Node.mk .listItem [Node.mk .paragraph [textAt 1]]]⟩ ::
                  [⟨NodeData.document, [], []⟩]⟩)
            ((if false then
                sprintfOListItem (exampleEnv.numElement
                  ⟨Node.mk .listItem [Node.mk .paragraph [textAt 0]],
                    ⟨NodeData.list false 1, [],
                        [Node.mk .listItem [Node.mk .paragraph [textAt 1]]]⟩ ::
                      [⟨NodeData.document, [], []⟩]⟩)
              else preUListItem) ++
              childrenStream exampleEnv ⟨⟨false, false⟩, []⟩ [97, 98] NodeData.listItem
                (⟨NodeData.list false 1, [],
                    [Node.mk .listItem [Node.mk .paragraph [textAt 1]]]⟩ ::
                  [⟨NodeData.document, [], []⟩])
                [Node.mk .paragraph [textAt 0]]) ++
            tail,
          WalkStatus.WalkContinue, none⟩ :=
  ⟨rfl, by decide, by decide, by decide,
    (entering_call_skips_children exampleEnv ⟨⟨false, false⟩, []⟩ ([97], none) [97, 98]
      firstItem [⟨NodeData.document, [], []⟩] [Node.mk .paragraph [textAt 0]] false 1 []
      [Node.mk .listItem [Node.mk .paragraph [textAt 1]]]).2.2.2.2.1 rfl (by decide)⟩

end Markdown

namespace Markdown

/-! ## `Format` -/

/-- Formatting twice differs from formatting once for every parser that
reads the first source as a paragraph with a code span over its bytes 3 to 6
(a grave accent, `a`, a grave accent) and the rendered text as a paragraph
with a code span over its byte 3 (the `a` between two runs of three grave
accents). -/
theorem Format_twice_differs (cfg : Config) (parse : Bytes → MapSlice × Node)
    (h₁ : parse [96, 96, 32, 96, 97, 96, 32, 96, 96, 10] = ([], codeSpanDocument 3 6))
    (h₂ : parse [96, 96, 96, 97, 96, 96, 96, 10] = ([], codeSpanDocument 3 4)) :
    Format exampleEnv cfg parse [96, 96, 32, 96, 97, 96, 32, 96, 96, 10] =
      Except.ok [96, 96, 96, 97, 96, 96, 96, 10] ∧
    Format exampleEnv cfg parse [96, 96, 96, 97, 96, 96, 96, 10] =
      Except.ok [96, 97, 96, 10] := by
  obtain ⟨hw, term⟩ := cfg
  unfold Format
  rw [h₁, h₂]
  cases hw <;> cases term <;> decide

end Markdown

namespace Gen

/-! ## `PropertyValues` -/

/-- C21 (the code at the failing input): for the map with the keys `a` and
`A`, both Title-cased to `A`, the list handed to the template is the
checkbox property before the select property when the map is visited in one
order and the select property before the checkbox property when it is
visited in the other: the list depends on the iteration order. -/
theorem PropertyValues_depends_on_iteration_order :
    (PropertyValues exampleTitle insertionSort id "db" collidingMap).Properties =
      [⟨"A", ⟨"checkbox", none⟩⟩, ⟨"A", ⟨"select", none⟩⟩] ∧
    (PropertyValues exampleTitle insertionSort List.reverse "db" collidingMap).Properties =
      [⟨"A", ⟨"select", none⟩⟩, ⟨"A", ⟨"checkbox", none⟩⟩] ∧
    PropertyValues exampleTitle insertionSort id "db" collidingMap ≠
      PropertyValues exampleTitle insertionSort List.reverse "db" collidingMap := by
  decide

theorem insertLeft_perm {α : Type} (less : α → α → Bool) (x : α) (l : List α) :
    (insertLeft less x l).Perm (x :: l) := by
  induction l with
  | nil => exact List.Perm.refl _
  | cons y ys ih =>
    unfold insertLeft
    by_cases h : less x y = true
    · rw [if_pos h]
      exact (List.Perm.cons y ih).trans (List.Perm.swap x y ys)
    · rw [if_neg h]

theorem foldl_insertLeft_perm {α : Type} (less : α → α → Bool) (l acc : List α) :
    (l.foldl (fun sortedPrefix x => insertLeft less x sortedPrefix) acc).Perm
      (l.reverse ++ acc) := by
  induction l generalizing acc with
  | nil => exact List.Perm.refl _
  | cons x xs ih =>
    rw [List.foldl_cons, List.reverse_cons, List.append_assoc]
    exact (ih _).trans (List.Perm.append_left _ (insertLeft_perm less x acc))

/-- The insertion sort returns a permutation of its input. -/
theorem insertionSort_perm {α : Type} (less : α → α → Bool) (l : List α) :
    (insertionSort less l).Perm l := by
  unfold insertionSort
  refine (List.reverse_perm _).trans ?_
  have h := foldl_insertLeft_perm less l []
  rw [List.append_nil] at h
  exact h.trans (List.reverse_perm l)

theorem insertLeft_pairwise {α : Type} (less : α → α → Bool)
    (hasymm : ∀ a b, less a b = true → less b a = false)
    (htrans : ∀ a b c, less a b = false → less b c = false → less a c = false)
    (x : α) (l : List α) (hl : l.Pairwise (fun a b => less a b = false)) :
    (insertLeft less x l).Pairwise (fun a b => less a b = false) := by
  induction l with
  | nil => exact List.pairwise_singleton _ _
  | cons y ys ih =>
    rw [List.pairwise_cons] at hl
    unfold insertLeft
    by_cases h : less x y = true
    · rw [if_pos h, List.pairwise_cons]
      refine ⟨?_, ih hl.2⟩
      intro z hz
      rcases List.mem_cons.1 ((insertLeft_perm less x ys).mem_iff.1 hz) with rfl | hz
      · exact hasymm _ _ h
      · exact hl.1 z hz
    · rw [if_neg h, List.pairwise_cons]
      have hxy : less x y = false := by simpa using h
      refine ⟨?_, List.pairwise_cons.2 hl⟩
      intro z hz
      rcases List.mem_cons.1 hz with rfl | hz
      · exact hxy
      · exact htrans _ _ _ hxy (hl.1 z hz)

/-- The insertion sort returns a list in which no element is less than an
earlier one, for a comparison that is asymmetric and whose negation is
transitive. -/
theorem insertionSort_sorted {α : Type} (less : α → α → Bool)
    (hasymm : ∀ a b, less a b = true → less b a = false)
    (htrans : ∀ a b c, less a b = false → less b c = false → less a c = false)
    (l : List α) : (insertionSort less l).Pairwise (fun a b => less b a = false) := by
  unfold insertionSort
  rw [List.pairwise_reverse]
  have key : ∀ (l acc : List α), acc.Pairwise (fun a b => less a b = false) →
      (l.foldl (fun sortedPrefix x => insertLeft less x sortedPrefix) acc).Pairwise
        (fun a b => less a b = false) := by
    intro l
    induction l with
    | nil => intro acc h; exact h
    | cons x xs ih =>
      intro acc h
      rw [List.foldl_cons]
      exact ih _ (insertLeft_pairwise less hasymm htrans x acc h)
  exact key l [] List.Pairwise.nil

theorem lessKey_false_iff (a b : property) :
    lessKey a b = false ↔ b.Key.toList ≤ a.Key.toList := by
  unfold lessKey
  simp

/-- The insertion sort meets the contract of `sort.Slice` for the comparison
of `PropertyValues`. -/
theorem insertionSort_lessKey (l : List property) :
    (insertionSort lessKey l).Perm l ∧
      (insertionSort lessKey l).Pairwise (fun a b => lessKey b a = false) := by
  refine ⟨insertionSort_perm _ _, insertionSort_sorted _ ?_ ?_ _⟩
  · intro a b h
    rw [lessKey_false_iff]
    unfold lessKey at h
    exact le_of_lt (by simpa using h)
  · intro a b c h1 h2
    rw [lessKey_false_iff] at *
    exact le_trans h2 h1

/-- For a map whose Title-cased keys are pairwise different and a sort that
returns a sorted permutation, the template data of `PropertyValues` has one
property per map entry, in ascending order of the keys, and is the same for
every iteration order of the map. -/
theorem PropertyValues_deterministic (title : String → String)
    (sortSlice : (property → property → Bool) → List property → List property)
    (range₁ range₂ : PropertyMetaMap → PropertyMetaMap) (pkgName : String) (m : PropertyMetaMap)
    (hsort : ∀ l, (sortSlice lessKey l).Perm l ∧
      (sortSlice lessKey l).Pairwise (fun a b => lessKey b a = false))
    (h₁ : (range₁ m).Perm m) (h₂ : (range₂ m).Perm m)
    (hkeys : (m.map (fun kv => title kv.1)).Nodup) :
    (PropertyValues title sortSlice range₁ pkgName m).Properties.Perm
        (m.map (fun kv => (⟨title kv.1, kv.2⟩ : property))) ∧
    (PropertyValues title sortSlice range₁ pkgName m).Properties.Pairwise
        (fun a b => a.Key.toList < b.Key.toList) ∧
    PropertyValues title sortSlice range₁ pkgName m =
      PropertyValues title sortSlice range₂ pkgName m := by
  have hperm : ∀ (range : PropertyMetaMap → PropertyMetaMap), (range m).Perm m →
      (sortSlice lessKey ((range m).map (fun kv => (⟨title kv.1, kv.2⟩ : property)))).Perm
        (m.map (fun kv => (⟨title kv.1, kv.2⟩ : property))) :=
    fun range h => (hsort _).1.trans (h.map _)
  have hstrict : ∀ (range : PropertyMetaMap → PropertyMetaMap), (range m).Perm m →
      (sortSlice lessKey ((range m).map (fun kv => (⟨title kv.1, kv.2⟩ : property)))).Pairwise
        (fun a b => a.Key.toList < b.Key.toList) := by
    intro range h
    have hnd : ((sortSlice lessKey
        ((range m).map (fun kv => (⟨title kv.1, kv.2⟩ : property)))).map
          (fun p => p.Key)).Nodup := by
      have h3 := (hperm range h).map (fun p => p.Key)
      rw [List.map_map] at h3
      exact h3.nodup_iff.2 hkeys
    have hne := List.pairwise_map.1 hnd
    refine ((hsort _).2.and hne).imp ?_
    intro a b hab
    have hle : a.Key.toList ≤ b.Key.toList := (lessKey_false_iff b a).1 hab.1
    refine lt_of_le_of_ne hle ?_
    intro heq
    exact hab.2 (String.ext heq)
  refine ⟨hperm range₁ h₁, hstrict range₁ h₁, ?_⟩
  unfold PropertyValues
  simp only [ctxPropertyValues.mk.injEq, true_and]
  haveI : IsAntisymm property (fun a b => a.Key.toList < b.Key.toList) :=
    ⟨fun a b hab hba => absurd hab (lt_asymm hba)⟩
  exact List.eq_of_perm_of_sorted ((hperm range₁ h₁).trans (hperm range₂ h₂).symm)
    (hstrict range₁ h₁) (hstrict range₂ h₂)

end Gen

namespace Gen

/-! ## `GoType` and `IsInt` -/

/-- C25 (the code at the failing input): for a property of type number with
no number configuration, `GoType` dereferences the nil pointer
`p.meta.Number` and returns no type name, while `IsInt` on the same
property tests for nil and returns false. -/
theorem GoType_number_without_config :
    property.GoType examplePascal ⟨"My Number", ⟨"number", none⟩⟩ = none ∧
    property.IsInt ⟨"My Number", ⟨"number", none⟩⟩ = false ∧
    (∀ toPascal key, property.GoType toPascal ⟨key, ⟨"number", none⟩⟩ = none) :=
  ⟨by decide, by decide, fun _ _ => rfl⟩

/-- The default branch of `GoType` never gives `int`. -/
theorem notion_prefixed_ne_int (s : String) : "notion." ++ s ≠ "int" := by
  intro h
  have hl := congrArg String.length h
  rw [String.length_append] at hl
  have h1 : "notion.".length = 7 := by decide
  have h2 : "int".length = 3 := by decide
  omega

/-- C26 (counterexample): a checkbox property that carries a plain-number
configuration has `IsInt` true, and `GoType` is defined on it and returns
`bool`, not `int`. -/
theorem IsInt_ignores_type :
    property.IsInt ⟨"Check", ⟨"checkbox", some ⟨"number"⟩⟩⟩ = true ∧
    property.GoType examplePascal ⟨"Check", ⟨"checkbox", some ⟨"number"⟩⟩⟩ = some "bool" ∧
    property.GoType examplePascal ⟨"Check", ⟨"checkbox", some ⟨"number"⟩⟩⟩ ≠ some "int" := by
  decide

/-- C26 (amended): for every property meta that carries a number
configuration only if its type is number, and on which `GoType` is defined,
`IsInt` is true if and only if `GoType` returns `int`; and for every property
meta whatsoever, `GoType` returning `int` implies that `IsInt` is true. -/
theorem IsInt_iff_GoType_int (toPascal : String → String) (p : property) (t : String)
    (hdef : p.GoType toPascal = some t) :
    (t = "int" → p.IsInt = true) ∧
    ((p.meta.Number ≠ none → p.meta.type = "number") → (p.IsInt = true ↔ t = "int")) := by
  have hint : t = "int" → p.IsInt = true := by
    intro ht
    subst ht
    unfold property.GoType PropertyTypeTitle PropertyTypeRichText PropertyTypeSelect
      PropertyTypeCheckbox PropertyTypeMultiSelect PropertyTypeNumber PropertyTypeRelation
      NumberConfigFormatNumber at hdef
    unfold property.IsInt NumberConfigFormatNumber
    split_ifs at hdef with h1 h2 h3 h4 h5 h6
    · simp at hdef
    · simp at hdef
    · simp at hdef
    · simp at hdef
    · cases hn : p.meta.Number with
      | none => rw [hn] at hdef; simp at hdef
      | some num =>
        rw [hn] at hdef
        simp only at hdef
        by_cases hf : num.Format = "number"
        · simp [hf]
        · simp [hf] at hdef
    · simp at hdef
    · simp only [Option.some.injEq] at hdef
      exact absurd hdef (notion_prefixed_ne_int _)
  refine ⟨hint, fun hconv => ⟨?_, hint⟩⟩
  intro hi
  unfold property.IsInt NumberConfigFormatNumber at hi
  cases hn : p.meta.Number with
  | none => rw [hn] at hi; simp at hi
  | some num =>
    rw [hn] at hi
    have hf : num.Format = "number" := by simpa using hi
    have hty : p.meta.type = "number" := hconv (by rw [hn]; simp)
    unfold property.GoType PropertyTypeTitle PropertyTypeRichText PropertyTypeSelect
      PropertyTypeCheckbox PropertyTypeMultiSelect PropertyTypeNumber PropertyTypeRelation
      NumberConfigFormatNumber at hdef
    rw [hty, hn] at hdef
    simp [hf] at hdef
    exact hdef.symm

/-- C26 (witness): the two number properties of the test: `int` with
`IsInt` for the plain format, `float32` without `IsInt` for another format. -/
theorem IsInt_iff_GoType_int_witness :
    (property.IsInt ⟨"My Number", ⟨"number", some ⟨"number"⟩⟩⟩ = true ↔
      "int" = "int") ∧
    (property.IsInt ⟨"My Float", ⟨"number", some ⟨"number_with_commas"⟩⟩⟩ = true ↔
      "float32" = "int") :=
  ⟨(IsInt_iff_GoType_int examplePascal ⟨"My Number", ⟨"number", some ⟨"number"⟩⟩⟩ "int"
      (by decide)).2 (fun _ => rfl),
    (IsInt_iff_GoType_int examplePascal
      ⟨"My Float", ⟨"number", some ⟨"number_with_commas"⟩⟩⟩ "float32"
      (by decide)).2 (fun _ => rfl)⟩

end Gen
